import Mathlib

/-!
# Verification of the GamesMaster matching core

This file gives a shallow embedding, in Lean 4, of the parts of the
GamesMaster repository that the specification's claims are about:

* `src/match_validator.py` — string normalization and fuzzy title matching
  (`MatchValidator.normalize`, `titles_equal_fuzzy`, `validate`, …);
* `src/clients/ClientBase.py` — the HTTP client core
  (`ExponentialBackoff.backoff`, the `do_req` retry loop inside
  `ClientBase.request`, the response cache keyed by `_hash_request`,
  `try_match_game`);
* `src/game_match.py` — `GameMatchResultSet` and friends;
* `src/excel_parser.py` — the per-source batch loop of
  `ExcelParser.__get_matches_for_source`, including its resumable-checkpoint
  handling.

Strings are modelled as `List Char`.  Python library functions used by the
source (`str.casefold`, `str.isalnum`, `unicodedata.normalize("NFKD", ·)`,
`html.unescape`, `roman.fromRoman`, the `edit_distance` package) are modelled
faithfully for the character repertoire exercised by this development
(ASCII plus the explicitly tabled Latin characters such as 'é'); each model
notes its restriction in its doc comment.  Fallible Python code (code that can
raise) is modelled with `Option`, `none` standing for an uncaught exception.

All recursive functions are structurally recursive (using explicit fuel where
the Python recursion is not structural) so that every definition evaluates
inside the kernel via `decide`/`rfl`.
-/

set_option maxRecDepth 10000

namespace GamesMaster

/-! ## Models of Python character/string primitives -/

/-- Model of Python `str.isdigit` restricted to ASCII decimal digits
(the only digits occurring in this repository's data). -/
def pyIsDigit (c : Char) : Bool := 48 ≤ c.toNat && c.toNat ≤ 57

/-- Model of Python `str.isalnum` restricted to the character repertoire of
this development: ASCII letters and digits, plus the accented Latin letters
that occur in the repository's titles ('é') and the macron vowels handled by
`MatchValidator.romanize`.  Symbols ('™', '®', '©', '&', '(', ')', '#', ';',
combining accents, whitespace, …) are not alphanumeric, as in Python. -/
def pyIsAlnum (c : Char) : Bool :=
  (48 ≤ c.toNat && c.toNat ≤ 57) || (65 ≤ c.toNat && c.toNat ≤ 90) ||
    (97 ≤ c.toNat && c.toNat ≤ 122) ||
    c == 'é' || c == 'É' || c == 'ō' || c == 'ū' || c == 'Ō' || c == 'Ū'

/-- Model of Python `str.isspace` restricted to the ASCII whitespace
characters (the only whitespace occurring in this repository's data). -/
def pyIsSpace (c : Char) : Bool :=
  c == ' ' || c == '\t' || c == '\n' || c == '\x0D' || c == '\x0B' || c == '\x0C'

/-- Model of Python `str.casefold`, character-wise, restricted to the
repertoire of this development: ASCII uppercase letters map to lowercase and
'É' maps to 'é'; every other character in the repertoire is case-fold fixed. -/
def pyCasefoldChar (c : Char) : Char :=
  if c = 'É' then 'é'
  else if 65 ≤ c.toNat ∧ c.toNat ≤ 90 then Char.ofNat (c.toNat + 32)
  else c

/-- Model of Python `str.casefold` on whole strings. -/
def pyCasefold (s : List Char) : List Char := s.map pyCasefoldChar

/-- Model of Python `str.upper`, character-wise, restricted to the repertoire
of this development ('é' maps to 'É'; ASCII lowercase maps to uppercase). -/
def pyUpperChar (c : Char) : Char :=
  if c = 'é' then 'É'
  else if 97 ≤ c.toNat ∧ c.toNat ≤ 122 then Char.ofNat (c.toNat - 32)
  else c

/-- Model of Python `str.upper` on whole strings. -/
def pyUpper (s : List Char) : List Char := s.map pyUpperChar

/-- Model of Python `str.lower`, character-wise (identical to `pyCasefoldChar`
on this development's repertoire, as in Python for these characters). -/
def pyLowerChar (c : Char) : Char := pyCasefoldChar c

/-- Model of Python `str.lower` on whole strings. -/
def pyLower (s : List Char) : List Char := s.map pyLowerChar

/-- Model of `unicodedata.normalize("NFKD", ·)`, character-wise, restricted to
the repertoire of this development: 'é' decomposes into 'e' followed by the
combining acute accent U+0301; the ASCII characters and the remaining tabled
characters are their own NFKD decomposition. -/
def nfkdChar (c : Char) : List Char :=
  if c = 'é' then ['e', '́'] else [c]

/-- Model of `unicodedata.normalize("NFKD", ·)` on whole strings. -/
def pyNFKD (s : List Char) : List Char := s.flatMap nfkdChar

/-- Model of Python `str.strip()` (no arguments): remove leading and trailing
whitespace. -/
def pyStrip (s : List Char) : List Char :=
  ((s.dropWhile pyIsSpace).reverse.dropWhile pyIsSpace).reverse

/-- Python `str.split()` (no arguments): split on runs of whitespace,
discarding empty tokens.  `cur` is the reversed current token. -/
def splitWsAux (cur : List Char) : List Char → List (List Char)
  | [] => if cur.isEmpty then [] else [cur.reverse]
  | c :: rest =>
    if pyIsSpace c then
      if cur.isEmpty then splitWsAux [] rest
      else cur.reverse :: splitWsAux [] rest
    else splitWsAux (c :: cur) rest

/-- Model of Python `str.split()` with no arguments. -/
def pySplitWs (s : List Char) : List (List Char) := splitWsAux [] s

/-- Model of Python `" ".join`. -/
def joinSpace : List (List Char) → List Char
  | [] => []
  | [t] => t
  | t :: t2 :: rest => t ++ ' ' :: joinSpace (t2 :: rest)

/-- Model of Python `",".join`. -/
def joinComma : List (List Char) → List Char
  | [] => []
  | [t] => t
  | t :: t2 :: rest => t ++ ',' :: joinComma (t2 :: rest)

/-- The decimal digit character for `n % 10`. -/
def digitChar10 (n : Nat) : Char := Char.ofNat (48 + n % 10)

/-- Decimal digits of `n`, most significant first (fuel-structural model of
Python `str(int)`; `fuel = n + 1` always suffices). -/
def natDigitsAux : Nat → Nat → List Char
  | 0, _ => []
  | fuel + 1, n =>
    if n < 10 then [digitChar10 n]
    else natDigitsAux fuel (n / 10) ++ [digitChar10 n]

/-- Model of Python `str(n)` for a natural number `n`. -/
def natDigits (n : Nat) : List Char := natDigitsAux (n + 1) n

/-- Numeric value of a list of decimal digit characters. -/
def decDigitsVal (ds : List Char) : Nat :=
  ds.foldl (fun n c => 10 * n + (c.toNat - 48)) 0

/-- Model of Python `html.unescape`, restricted to decimal numeric character
references: each `&#ddd` (with optional trailing `';'`) is replaced by the
character with code point `ddd`; any other text, including ampersands that do
not begin a decimal numeric reference, is left unchanged.  (Named and
hexadecimal references do not occur in this development's inputs.)
Fuel-structural; `fuel = length` suffices since every step consumes at least
one character. -/
def pyUnescapeAux : Nat → List Char → List Char
  | 0, l => l
  | _ + 1, [] => []
  | fuel + 1, c :: rest =>
    if c = '&' then
      match rest with
      | '#' :: r2 =>
        let ds := r2.takeWhile Char.isDigit
        if ds.isEmpty then c :: pyUnescapeAux fuel rest
        else
          let r3 := r2.dropWhile Char.isDigit
          match r3 with
          | ';' :: r4 => Char.ofNat (decDigitsVal ds) :: pyUnescapeAux fuel r4
          | _ => Char.ofNat (decDigitsVal ds) :: pyUnescapeAux fuel r3
      | _ => c :: pyUnescapeAux fuel rest
    else c :: pyUnescapeAux fuel rest

/-- Model of Python `html.unescape` (see `pyUnescapeAux`). -/
def pyUnescape (s : List Char) : List Char := pyUnescapeAux s.length s

/-- ASCII-only alphanumeric test, matching the regex class `[A-Za-z0-9]`. -/
def isAsciiAlnum (c : Char) : Bool :=
  (48 ≤ c.toNat && c.toNat ≤ 57) || (65 ≤ c.toNat && c.toNat ≤ 90) ||
    (97 ≤ c.toNat && c.toNat ≤ 122)

/-- Shape test for the tail of a `" (XXXX)"` match: an opening parenthesis,
four ASCII alphanumerics, a closing parenthesis. -/
def matchesParenFour : List Char → Bool
  | '(' :: a :: b :: c :: d :: ')' :: _ =>
    isAsciiAlnum a && isAsciiAlnum b && isAsciiAlnum c && isAsciiAlnum d
  | _ => false

/-- Model of `re.sub(r"( \([A-Za-z0-9]{4}\))", "", ·)`: scan left to right,
removing every occurrence of a space followed by a parenthesized group of
exactly four ASCII alphanumerics, continuing after each removal (as `re.sub`
does).  Fuel-structural; `fuel = length` suffices. -/
def removeParenFourAux : Nat → List Char → List Char
  | 0, l => l
  | _ + 1, [] => []
  | fuel + 1, c :: rest =>
    if c = ' ' ∧ matchesParenFour rest then removeParenFourAux fuel (rest.drop 6)
    else c :: removeParenFourAux fuel rest

/-- Model of `re.sub(r"( \([A-Za-z0-9]{4}\))", "", ·)` (see
`removeParenFourAux`). -/
def removeParenFour (s : List Char) : List Char := removeParenFourAux s.length s

/-- Model of `re.sub(r"The ", "", ·)` (the validator's `__THE_REGEX`):
remove every occurrence of the substring `"The "`, scanning left to right. -/
def removeThe : List Char → List Char
  | 'T' :: 'h' :: 'e' :: ' ' :: rest => removeThe rest
  | c :: rest => c :: removeThe rest
  | [] => []

/-! ## Model of `roman.fromRoman` (the `roman` PyPI package)

`roman.fromRoman(s)` raises `InvalidRomanNumeralError` when `s` is empty or
does not match the anchored pattern
`M{0,4}(CM|CD|D?C{0,3})(XC|XL|L?X{0,3})(IX|IV|V?I{0,3})`; otherwise it returns
the numeral's value.  The ordered-alternative greedy parse below is equivalent
to that regex on every input, because the alternatives consume distinct
leading characters and each quantified atom cannot begin the following
group. -/

/-- Consume up to `max` copies of `c` from the front, returning the count and
the rest. -/
def takeCount (c : Char) : Nat → List Char → Nat × List Char
  | 0, l => (0, l)
  | _ + 1, [] => (0, [])
  | max + 1, x :: rest =>
    if x = c then
      let (n, r) := takeCount c max rest
      (n + 1, r)
    else (0, x :: rest)

/-- The regex group `(CM|CD|D?C{0,3})`, returning its value and the rest. -/
def romanHundreds : List Char → Nat × List Char
  | 'C' :: 'M' :: rest => (900, rest)
  | 'C' :: 'D' :: rest => (400, rest)
  | 'D' :: rest => (500 + 100 * (takeCount 'C' 3 rest).1, (takeCount 'C' 3 rest).2)
  | l => (100 * (takeCount 'C' 3 l).1, (takeCount 'C' 3 l).2)

/-- The regex group `(XC|XL|L?X{0,3})`, returning its value and the rest. -/
def romanTens : List Char → Nat × List Char
  | 'X' :: 'C' :: rest => (90, rest)
  | 'X' :: 'L' :: rest => (40, rest)
  | 'L' :: rest => (50 + 10 * (takeCount 'X' 3 rest).1, (takeCount 'X' 3 rest).2)
  | l => (10 * (takeCount 'X' 3 l).1, (takeCount 'X' 3 l).2)

/-- The regex group `(IX|IV|V?I{0,3})`, returning its value and the rest. -/
def romanUnits : List Char → Nat × List Char
  | 'I' :: 'X' :: rest => (9, rest)
  | 'I' :: 'V' :: rest => (4, rest)
  | 'V' :: rest => (5 + (takeCount 'I' 3 rest).1, (takeCount 'I' 3 rest).2)
  | l => ((takeCount 'I' 3 l).1, (takeCount 'I' 3 l).2)

/-- Model of `roman.fromRoman`: `none` models a raised
`InvalidRomanNumeralError` (blank input or pattern mismatch). -/
def fromRoman (l : List Char) : Option Nat :=
  if l.isEmpty then none
  else
    if (romanUnits (romanTens (romanHundreds (takeCount 'M' 4 l).2).2).2).2.isEmpty then
      some (1000 * (takeCount 'M' 4 l).1 +
        (romanHundreds (takeCount 'M' 4 l).2).1 +
        (romanTens (romanHundreds (takeCount 'M' 4 l).2).2).1 +
        (romanUnits (romanTens (romanHundreds (takeCount 'M' 4 l).2).2).2).1)
    else none

/-! ## `MatchValidator` (src/match_validator.py) -/

/-- `MatchValidator.romanize`: replace the macron vowels 'ō', 'ū', 'Ō', 'Ū'
by their Latin counterparts. -/
def romanize (s : List Char) : List Char :=
  s.map fun c =>
    if c = 'ō' then 'o'
    else if c = 'ū' then 'u'
    else if c = 'Ō' then 'O'
    else if c = 'Ū' then 'U'
    else c

/-- The inner `try_roman_numeralize` of `MatchValidator.roman_numeralize`:
keep only alphanumerics, uppercase, parse as a Roman numeral; on success with
value at most `maxN` return the decimal digits, otherwise return the token
unchanged (the `except InvalidRomanNumeralError` path). -/
def tryRomanNumeralize (maxN : Nat) (t : List Char) : List Char :=
  match fromRoman (pyUpper (t.filter pyIsAlnum)) with
  | none => t
  | some n => if n > maxN then t else natDigits n

/-- `MatchValidator.roman_numeralize` (default `_max = 20`): split on
whitespace, convert each token, join with single spaces. -/
def roman_numeralize (maxN : Nat) (s : List Char) : List Char :=
  joinSpace ((pySplitWs s).map (tryRomanNumeralize maxN))

/-- `MatchValidator.normalize`.  The pipeline, in source order: strip '™',
'®', '©'; `romanize`; `roman_numeralize` (max 20); `html.unescape`;
`casefold`; replace `'&'` by `"and"`; remove `" (XXXX)"` groups of four
alphanumerics; NFKD; `strip`; keep only alphanumerics.  The Python
memoization cache (`__cached_normalization`) is semantically transparent for
this pure function and is not modelled. -/
def normalize (s : List Char) : List Char :=
  (pyStrip
    (pyNFKD
      (removeParenFour
        ((pyCasefold
          (pyUnescape
            (roman_numeralize 20
              (romanize
                (s.filter fun c => !(c == '™' || c == '®' || c == '©')))))).flatMap
          fun c => if c = '&' then ['a', 'n', 'd'] else [c])))).filter pyIsAlnum

/-- `MatchValidator.titles_equal_normalized` (on non-`None` inputs, which is
how every call site in scope reaches it): normalize both and compare. -/
def titles_equal_normalized (t1 t2 : List Char) : Bool :=
  normalize t1 == normalize t2

/-- `MatchValidator.pokemon_special_case`: when the first title starts with
`"Pokémon"` and does not end with `"version"`, compare it with `"version"`
appended against the second title; otherwise `False`.  Note that only the
first argument is special-cased. -/
def pokemon_special_case (t1 t2 : List Char) : Bool :=
  if ("Pokémon".data).isPrefixOf t1 && !(("version".data).isSuffixOf t1) then
    titles_equal_normalized (t1 ++ "version".data) t2
  else false

/-- Levenshtein edit distance with unit insert/delete/substitute costs, as
computed by the `edit_distance` package's `SequenceMatcher(a, b).distance()`.
Fuel-structural; `fuel = |xs| + |ys|` suffices since every recursive call
shortens the combined length. -/
def levAux : Nat → List Char → List Char → Nat
  | 0, xs, ys => xs.length + ys.length
  | _ + 1, [], ys => ys.length
  | _ + 1, xs, [] => xs.length
  | fuel + 1, x :: xs, y :: ys =>
    if x = y then levAux fuel xs ys
    else 1 + min (levAux fuel (x :: xs) ys) (min (levAux fuel xs (y :: ys)) (levAux fuel xs ys))

/-- Levenshtein distance (see `levAux`). -/
def lev (xs ys : List Char) : Nat := levAux (xs.length + ys.length) xs ys

/-- `MatchValidator.titles_equal_fuzzy`.  Mirrors Python's left-to-right
short-circuit evaluation of
`equal_prefixes or (distance ≤ 2 and len(t_1) > 1 and not t_1[-1].isdigit()
and not t_2[-1].isdigit()) or pokemon_special_case`.
`none` models the `IndexError` raised by `t_2[-1]` when the evaluation
reaches that subscript with `t_2` empty (there is no length guard for
`t_2`). -/
def titles_equal_fuzzy (t1 t2 : List Char) : Option Bool :=
  let t1f := removeThe (t1.takeWhile (· ≠ ':'))
  let t2f := removeThe (t2.takeWhile (· ≠ ':'))
  if titles_equal_normalized t1f t2f then some true
  else if lev (normalize t1) (normalize t2) ≤ 2 then
    if t1.length > 1 then
      match t1.getLast? with
      | none => some (pokemon_special_case t1 t2)
      | some c1 =>
        if pyIsDigit c1 then some (pokemon_special_case t1 t2)
        else
          match t2.getLast? with
          | none => none
          | some c2 =>
            if pyIsDigit c2 then some (pokemon_special_case t1 t2)
            else some true
    else some (pokemon_special_case t1 t2)
  else some (pokemon_special_case t1 t2)

/-! ## `ValidationInfo` and `MatchValidator.validate` -/

/-- `ValidationInfo` (src/match_validator.py), fields in constructor order. -/
structure ValidationInfo where
  matched : Bool
  exact : Bool
  platform_matched : Bool
  date_matched : Bool
  publisher_matched : Bool
  developer_matched : Bool
  franchise_matched : Bool
deriving DecidableEq

/-- `ValidationInfo.likely_match`. -/
def ValidationInfo.likely_match (v : ValidationInfo) : Bool :=
  v.matched && v.platform_matched

/-- `ValidationInfo.full_match`. -/
def ValidationInfo.full_match (v : ValidationInfo) : Bool :=
  v.matched && v.platform_matched && v.date_matched

/-- The fields of `ExcelGame` (src/excel_game.py) that the match validator
and the batch orchestrator read.  `platform` stands for the enum member's
`.value` string.  `hash_id` is the stable SHA-256 row identifier computed by
`ExcelGame.compute_properties` from the row's fields; it is carried here as
an opaque string. -/
structure ExcelGame where
  title : List Char
  platform : List Char
  release_year : Option Int
  publisher : Option (List Char)
  developer : Option (List Char)
  franchise : Option (List Char)
  hash_id : List Char
deriving DecidableEq

/-- Python truthiness of an optional string (`None` and `""` are falsy). -/
def pyTruthyOptStr : Option (List Char) → Bool
  | none => false
  | some s => !s.isEmpty

/-- Python `any(·)` over a list of strings (an element is truthy iff
nonempty). -/
def pyAnyStr (l : List (List Char)) : Bool := l.any fun s => !s.isEmpty

/-- Python `any(·)` over a list of ints (an element is truthy iff nonzero). -/
def pyAnyInt (l : List Int) : Bool := l.any fun n => n ≠ 0

/-- Python `str(·)` applied to an optional string (`str(None) = "None"`), as
`normalize` does on its argument. -/
def pyStrOpt : Option (List Char) → List Char
  | none => "None".data
  | some s => s

/-- Excerpt of the `PLATFORM_NAMES` alias table (src/constants.py), restricted
to the platforms exercised in this development; looking up a key outside the
table models the `KeyError` that `PLATFORM_NAMES[platform.lower()]` raises for
an unmapped platform. -/
def PLATFORM_NAMES (p : List Char) : Option (List (List Char)) :=
  if p = "nes".data then
    some ["famicom".data, "nintendo entertainment system".data,
          "family computer".data, "nintendo".data]
  else if p = "game boy".data then
    some ["nintendo game boy".data, "gb".data]
  else none

/-- The `any(filter(lambda p: p.lower() == platform.lower() or p.lower() in
PLATFORM_NAMES[platform.lower()], platforms))` body of
`MatchValidator.verify_platform`, with Python's left-to-right lazy
evaluation: the alias-table subscript is only reached when the direct
comparison fails, and `none` models its `KeyError`.  `any` sees only the
elements the filter keeps, and an empty-string element is falsy. -/
def anyMatchingPlatform (plat : List Char) : List (List Char) → Option Bool
  | [] => some false
  | p :: rest =>
    if pyLower p = plat then
      if !p.isEmpty then some true else anyMatchingPlatform plat rest
    else
      match PLATFORM_NAMES plat with
      | none => none
      | some aliases =>
        if aliases.contains (pyLower p) then
          if !p.isEmpty then some true else anyMatchingPlatform plat rest
        else anyMatchingPlatform plat rest

/-- `MatchValidator.verify_platform`.  `none` models a raised `KeyError`. -/
def verify_platform (platform : List Char) (platforms : Option (List (List Char))) :
    Option Bool :=
  match platforms with
  | none => some false
  | some ps =>
    if !pyAnyStr ps then some false
    else anyMatchingPlatform (pyLower platform) ps

/-- `MatchValidator.verify_release_year`: membership test (`None in ys` is
`False`). -/
def verify_release_year (release_year : Option Int) (release_years : List Int) : Bool :=
  match release_year with
  | none => false
  | some y => release_years.contains y

/-- `MatchValidator.verify_component`: normalized membership test; `None` or
an all-falsy candidate list yields `False` before anything is normalized. -/
def verify_component (component : Option (List Char))
    (components : Option (List (List Char))) : Bool :=
  match components with
  | none => false
  | some cs =>
    if !pyAnyStr cs then false
    else cs.any fun c => normalize (pyStrOpt component) == normalize c

/-- `MatchValidator.verify_franchise`: vacuously true when both sides are
absent/falsy, otherwise delegates to `verify_component`. -/
def verify_franchise (franchise : Option (List Char))
    (franchises : Option (List (List Char))) : Bool :=
  if !pyAnyStr (franchises.getD []) && !pyTruthyOptStr franchise then true
  else verify_component franchise franchises

/-- `MatchValidator.validate`.  Mirrors the source's evaluation order:
`normal_equal`, then (short-circuit) `titles_equal_fuzzy`, then the guarded
platform and year checks, then the per-dimension components.  `none` models
an exception escaping `validate` (an `IndexError` from `titles_equal_fuzzy`
or a `KeyError` from the platform alias table). -/
def validate (game : ExcelGame) (title : List Char)
    (platforms : Option (List (List Char)))
    (release_years : Option (List Int))
    (publishers : Option (List (List Char)))
    (developers : Option (List (List Char)))
    (franchises : Option (List (List Char))) : Option ValidationInfo :=
  let normal_equal := titles_equal_normalized game.title title
  let fuzzy_equal? : Option Bool :=
    if normal_equal then some true else titles_equal_fuzzy game.title title
  match fuzzy_equal? with
  | none => none
  | some fuzzy_equal =>
    if !fuzzy_equal then
      some (ValidationInfo.mk false false false false false false false)
    else
      let platform_equal? : Option Bool :=
        match platforms with
        | none => some false
        | some ps =>
          if !pyAnyStr ps then some false
          else verify_platform game.platform (some ps)
      match platform_equal? with
      | none => none
      | some platform_equal =>
        let year_equal : Bool :=
          match release_years with
          | none => false
          | some ys => pyAnyInt ys && verify_release_year game.release_year ys
        some (ValidationInfo.mk fuzzy_equal normal_equal platform_equal year_equal
          (verify_component game.publisher publishers)
          (verify_component game.developer developers)
          (verify_franchise game.franchise franchises))

/-! ## HTTP client core (src/clients/ClientBase.py) -/

/-- `ExponentialBackoff` state: `backoff_seconds` is the next delay,
`_backoffs` counts the backoffs performed so far. -/
structure ExponentialBackoff where
  backoff_seconds : Nat
  exponent : Nat
  max_backoffs : Nat
  backoffs : Nat
deriving DecidableEq

/-- `ExponentialBackoff.__init__` (defaults: initial 2, exponent 2, max 3). -/
def ExponentialBackoff.init (initial_backoff exponent max_backoffs : Nat) :
    ExponentialBackoff :=
  ⟨initial_backoff, exponent, max_backoffs, 0⟩

/-- Outcome of one `ExponentialBackoff.backoff` call: either it sleeps for
`backoff_seconds` (plus a sub-second random jitter, not modelled) and squares
the delay, or — once `_backoffs + 1 > max_backoffs` — it raises
`ResponseNotOkError` instead of delaying. -/
inductive BackoffResult where
  | slept (delaySeconds : Nat) (st : ExponentialBackoff)
  | responseNotOkError
deriving DecidableEq

/-- `ExponentialBackoff.backoff` (the `url`/`reason` arguments only feed the
log line and are omitted). -/
def ExponentialBackoff.backoff (b : ExponentialBackoff) : BackoffResult :=
  if b.backoffs + 1 > b.max_backoffs then .responseNotOkError
  else
    .slept b.backoff_seconds
      ⟨b.backoff_seconds ^ b.exponent, b.exponent, b.max_backoffs, b.backoffs + 1⟩

/-- Run `n` consecutive `backoff` calls, collecting the slept delays;
`none` when some call raises `ResponseNotOkError`. -/
def runBackoffs : Nat → ExponentialBackoff → Option (List Nat × ExponentialBackoff)
  | 0, b => some ([], b)
  | n + 1, b =>
    match b.backoff with
    | .responseNotOkError => none
    | .slept d st =>
      match runBackoffs n st with
      | none => none
      | some (ds, st') => some (d :: ds, st')

/-- One network attempt inside `do_req`: either a response with a status code
and payload, or an `aiohttp` client error / timeout. -/
inductive NetAttempt where
  | ok (status : Nat) (payload : List Char)
  | netError
deriving DecidableEq

/-- Outcome of the `do_req` retry loop in `ClientBase.request`. -/
inductive DoReqOutcome where
  /-- A 200 response: the payload is returned (and cached by `request`). -/
  | success (payload : List Char)
  /-- A status in `__immediately_stop_statuses`: `ImmediatelyStopStatusError`
  is raised before any backoff. -/
  | immediatelyStop
  /-- `ResponseNotOkError` raised by an exhausted `ExponentialBackoff`. -/
  | responseNotOk
deriving DecidableEq

/-- The recursive `do_req` of `ClientBase.request`, driven by a script of
network attempts; returns the outcome and the number of network attempts
consumed.  A non-200 status in `stopStatuses` raises immediately; any other
non-200 status, and any network-level exception, goes through the shared
`backoff` object and retries.  `none` models a script too short for the run
(never the case in the theorems below). -/
def doReq (stopStatuses : List Nat) (b : ExponentialBackoff) :
    List NetAttempt → Option (DoReqOutcome × Nat)
  | [] => none
  | .ok status payload :: rest =>
    if status = 200 then some (.success payload, 1)
    else if stopStatuses.contains status then some (.immediatelyStop, 1)
    else
      match b.backoff with
      | .responseNotOkError => some (.responseNotOk, 1)
      | .slept _ st => (doReq stopStatuses st rest).map fun r => (r.1, r.2 + 1)
  | .netError :: rest =>
    match b.backoff with
    | .responseNotOkError => some (.responseNotOk, 1)
    | .slept _ st => (doReq stopStatuses st rest).map fun r => (r.1, r.2 + 1)

/-- `ClientBase._hash_request`: the string
`url + ",".join(str(v) for v in params.values()) + str(data)` that is passed
to Python's `hash`.  `params` is modelled as an ordered association list
(Python dicts iterate in insertion order) and the model uses the pre-image
string itself as the cache key: within one process `hash` is deterministic,
so equal strings get equal keys, and the cache's correctness already presumes
the (astronomically likely) injectivity on distinct strings. -/
def hash_request (url : List Char) (params : Option (List (List Char × List Char)))
    (data : Option (List Char)) : List Char :=
  url ++
    (match params with
     | some ps => joinComma (ps.map Prod.snd)
     | none => []) ++
    (match data with
     | some d => d
     | none => [])

/-- First-match association-list lookup (models a Python dict keyed by
strings). -/
def lookupA {α : Type} (k : List Char) : List (List Char × α) → Option α
  | [] => none
  | (k2, v) :: rest => if k2 = k then some v else lookupA k rest

/-- `ClientBase.request`: check `__cached_responses` first (a hit returns the
cached payload with no network call), otherwise run `do_req` with a fresh
default `ExponentialBackoff` and cache the payload on success.  Returns the
outcome, the updated cache, and the number of network attempts made.
Rate limiting only delays dispatch and is not modelled. -/
def request (stopStatuses : List Nat) (cache : List (List Char × List Char))
    (url : List Char) (params : Option (List (List Char × List Char)))
    (data : Option (List Char)) (attempts : List NetAttempt) :
    Option (DoReqOutcome × List (List Char × List Char) × Nat) :=
  let key := hash_request url params data
  match lookupA key cache with
  | some payload => some (.success payload, cache, 0)
  | none =>
    match doReq stopStatuses (ExponentialBackoff.init 2 2 3) attempts with
    | none => none
    | some (.success payload, n) => some (.success payload, (key, payload) :: cache, n)
    | some (out, n) => some (out, cache, n)

/-- Lexicographic string comparison (Python `<=` on `str`). -/
def strLe : List Char → List Char → Bool
  | [], _ => true
  | _ :: _, [] => false
  | a :: as, b :: bs => if a = b then strLe as bs else decide (a < b)

/-- Insert into a key-sorted parameter list. -/
def insertByKey (x : List Char × List Char) :
    List (List Char × List Char) → List (List Char × List Char)
  | [] => [x]
  | y :: rest => if strLe x.1 y.1 then x :: y :: rest else y :: insertByKey x rest

/-- Sorting an ordered parameter list by key (stable insertion sort), written
after the specification's words "a cache key from (url, sorted params, body)"
for the refinement comparison with `hash_request` (which the source computes
from the unsorted parameter values alone). -/
def paramsSorted (ps : List (List Char × List Char)) : List (List Char × List Char) :=
  ps.foldr insertByKey []

/-! ## `game_match.py`: match results and result sets -/

/-- `GameMatch` (src/game_match.py); `match_info` is an opaque source-specific
payload. -/
structure GameMatch where
  title : List Char
  url : Option (List Char)
  id : Option Int
  match_info : Option (List Char)
  validation_info : Option ValidationInfo
deriving DecidableEq

/-- The cause stored in `GameMatchResult.error`: per-row failures carry the
formatted traceback string from `try_match_game`; the batch loop's
`except (ImmediatelyStopStatusError, ResponseNotOkError)` handler stores the
exception object itself (in the model, only `ImmediatelyStopStatusError` can
reach that handler, since `try_match_game`'s broad `except Exception` already
converts `ResponseNotOkError` into a per-row traceback). -/
inductive BatchError where
  | traceback (tb : List Char)
  | immediatelyStopError
deriving DecidableEq

/-- `GameMatchResult` (src/game_match.py): `matches` defaults to `[]` via
`matches or []`. -/
structure GameMatchResult where
  game : Option ExcelGame
  matches' : List GameMatch
  error : Option BatchError
deriving DecidableEq

/-- The `match_type` string passed to `GameMatchResultSet.append` by the
batch loop.  Besides the three recognized literals, the loop also passes the
string `"matches"` (its `existing_gmr_type` for rows found in prior match
output), which none of `append`'s cases recognize. -/
inductive AppendLabel where
  | success
  | error
  | skipped
  | matchesLit
deriving DecidableEq

/-- `GameMatchResultSet` (src/game_match.py): three insertion-ordered maps
from the shared running `_index` to results, modelled as ordered association
lists. -/
structure GameMatchResultSet where
  offset : Nat
  batch_size : Nat
  successes : List (Nat × GameMatchResult)
  errors : List (Nat × GameMatchResult)
  skipped : List (Nat × GameMatchResult)
  index : Nat
deriving DecidableEq

/-- `GameMatchResultSet.__init__`. -/
def GameMatchResultSet.empty (offset batch_size : Nat) : GameMatchResultSet :=
  ⟨offset, batch_size, [], [], [], 0⟩

/-- `GameMatchResultSet.append`: store under the current `_index` in the map
selected by `match_type` — the unrecognized `"matches"` label stores nowhere —
then increment `_index` unconditionally. -/
def GameMatchResultSet.append (rs : GameMatchResultSet) (gmr : GameMatchResult)
    (t : AppendLabel) : GameMatchResultSet :=
  let rs' :=
    match t with
    | .success => { rs with successes := rs.successes ++ [(rs.index, gmr)] }
    | .error => { rs with errors := rs.errors ++ [(rs.index, gmr)] }
    | .skipped => { rs with skipped := rs.skipped ++ [(rs.index, gmr)] }
    | .matchesLit => rs
  { rs' with index := rs.index + 1 }

/-- `GameMatchResultSet.extend`. -/
def GameMatchResultSet.extend (rs : GameMatchResultSet) (gmrs : List GameMatchResult)
    (t : AppendLabel) : GameMatchResultSet :=
  gmrs.foldl (fun r g => r.append g t) rs

/-- `len(result_set)` = successes + errors (skipped not counted). -/
def GameMatchResultSet.pyLen (rs : GameMatchResultSet) : Nat :=
  rs.successes.length + rs.errors.length

/-- The row hashes recorded in a result set (successes, errors, skipped, in
that order), used by the resume check via
`set(g.game.hash_id for g in ...)`. -/
def entryHashes (l : List (Nat × GameMatchResult)) : List (List Char) :=
  l.filterMap fun p => p.2.game.map ExcelGame.hash_id

/-- All row hashes of a result set (see `entryHashes`). -/
def GameMatchResultSet.allHashes (rs : GameMatchResultSet) : List (List Char) :=
  entryHashes rs.successes ++ entryHashes rs.errors ++ entryHashes rs.skipped

/-! ## `ClientBase.try_match_game` and the batch loop of
`ExcelParser.__get_matches_for_source` (src/excel_parser.py) -/

/-- Behavior of a source adapter's `match_game(game)` call: it returns a list
of matches, raises `ImmediatelyStopStatusError`, or raises some other
`Exception` (including `ResponseNotOkError` from exhausted retries) whose
formatted traceback is `tb`.  Adapters are deterministic functions of the row
in this model (responses are cached within a run). -/
inductive MatchGameBehavior where
  | returns (ms : List GameMatch)
  | raisesImmediatelyStop
  | raisesException (tb : List Char)
deriving DecidableEq

/-- Result of `ClientBase.try_match_game`: either the `(success, matches,
error)` tuple, or a re-raised `ImmediatelyStopStatusError`.  A plain
`Exception` from `match_game` is caught and converted to
`(False, None, traceback)`; `ImmediatelyStopStatusError` is re-raised. -/
inductive TryMatchResult where
  | tuple (success : Bool) (ms : Option (List GameMatch)) (err : Option (List Char))
  | raisesImmediatelyStop
deriving DecidableEq

/-- `ClientBase.try_match_game`. -/
def try_match_game (should_skip : Bool) (mg : MatchGameBehavior) : TryMatchResult :=
  if should_skip then .tuple true none none
  else
    match mg with
    | .returns ms => .tuple true (some ms) none
    | .raisesImmediatelyStop => .raisesImmediatelyStop
    | .raisesException tb => .tuple false none (some tb)

/-- `ExcelParser.__filter_matches`: deterministic reduction of a multi-match
list — prefer a unique exact match, then a unique full match among the exact
matches. -/
def filter_matches (matches' : List GameMatch) : List GameMatch :=
  if matches'.length > 1 then
    let filterFullMatches (mats : List GameMatch) : List GameMatch :=
      mats.filter fun m =>
        match m.validation_info with
        | none => false
        | some vi => vi.full_match
    let exact_matches :=
      matches'.filter fun m =>
        match m.validation_info with
        | none => false
        | some vi => vi.exact
    if exact_matches.length > 1 then
      let full_matches := filterFullMatches exact_matches
      if full_matches.length > 1 then full_matches
      else if full_matches.length = 1 then full_matches.take 1
      else exact_matches
    else if exact_matches.length = 1 then exact_matches.take 1
    else
      -- note: the source filters `exact_matches` (empty here), not `matches`
      let full_matches := filterFullMatches exact_matches
      if full_matches.length > 1 then full_matches
      else if full_matches.length = 1 then full_matches.take 1
      else matches'
  else matches'

/-- A value of `ExcelParser.__processed_matches_by_source_and_type[source]
[kind]`: the `"matches"` map holds `GameMatch` values (from match output
files) as well as `GameMatchResult` values (from no-match files); the
`"skipped"`/`"errors"` maps hold `GameMatchResult` values. -/
inductive ProcessedEntry where
  | matchEntry (m : GameMatch)
  | gmrEntry (r : GameMatchResult)
deriving DecidableEq

/-- The per-source processed index, keyed by row hash. -/
structure ProcessedIndex where
  matchesIdx : List (List Char × ProcessedEntry)
  skippedIdx : List (List Char × ProcessedEntry)
  errorsIdx : List (List Char × ProcessedEntry)
deriving DecidableEq

/-- An index with no prior output. -/
def ProcessedIndex.empty : ProcessedIndex := ⟨[], [], []⟩

/-- The `isinstance(existing_gmr, GameMatch)` wrapping in the batch loop:
a bare `GameMatch` is wrapped as `GameMatchResult(game, [gm])` around the
current row. -/
def wrapEntry (g : ExcelGame) : ProcessedEntry → GameMatchResult
  | .matchEntry m => ⟨some g, [m], none⟩
  | .gmrEntry r => r

/-- The existing-result lookup at the top of the batch loop's body: check the
`"skipped"` map, then let the `"matches"` map override, returning the entry
and the `existing_gmr_type` label that will be passed to `append`. -/
def lookupExisting (idx : ProcessedIndex) (g : ExcelGame) :
    Option (GameMatchResult × AppendLabel) :=
  let afterSkipped :=
    match lookupA g.hash_id idx.skippedIdx with
    | some e => some (wrapEntry g e, AppendLabel.skipped)
    | none => none
  match lookupA g.hash_id idx.matchesIdx with
  | some e => some (wrapEntry g e, AppendLabel.matchesLit)
  | none => afterSkipped

/-- One iteration of `for i, game in enumerate(self.__loader.games[offset:
batch_stop])`.  Returns the updated result set and whether the loop `break`s.
On `ImmediatelyStopStatusError` the handler extends the error map with
`GameMatchResult(g, error=exc)` for every `g` in `self.__loader.games[i:]` —
the batch-relative index `i` applied to the full sheet — and breaks. -/
def processRow (idx : ProcessedIndex) (allGames : List ExcelGame)
    (clientSkip : ExcelGame → Bool) (clientMatch : ExcelGame → MatchGameBehavior)
    (rs : GameMatchResultSet) (i : Nat) (game : ExcelGame) :
    GameMatchResultSet × Bool :=
  match lookupExisting idx game with
  | some (egmr, label) => (rs.append egmr label, false)
  | none =>
    match try_match_game (clientSkip game) (clientMatch game) with
    | .raisesImmediatelyStop =>
      (rs.extend
        ((allGames.drop i).map fun g =>
          GameMatchResult.mk (some g) [] (some .immediatelyStopError))
        .error, true)
    | .tuple success gms err =>
      match success, gms with
      | true, some ms =>
        (rs.append (GameMatchResult.mk (some game) (filter_matches ms) none) .success,
         false)
      | false, _ =>
        (rs.append (GameMatchResult.mk (some game) [] (err.map BatchError.traceback))
          .error, false)
      | true, none =>
        (rs.append (GameMatchResult.mk (some game) [] none) .skipped, false)

/-- The batch loop over the enumerated slice. -/
def processRows (idx : ProcessedIndex) (allGames : List ExcelGame)
    (clientSkip : ExcelGame → Bool) (clientMatch : ExcelGame → MatchGameBehavior) :
    GameMatchResultSet → List (Nat × ExcelGame) → GameMatchResultSet
  | rs, [] => rs
  | rs, (i, g) :: rest =>
    let step := processRow idx allGames clientSkip clientMatch rs i g
    if step.2 then step.1
    else processRows idx allGames clientSkip clientMatch step.1 rest

/-- The "`Batch already exists`" test: the output file for the batch exists
and every row hash of the batch occurs in the union of the processed maps'
keys. -/
def batchCovered (idx : ProcessedIndex) (allGames : List ExcelGame)
    (offset batch_stop : Nat) : Bool :=
  let allKeys := idx.matchesIdx.map Prod.fst ++ idx.skippedIdx.map Prod.fst ++
    idx.errorsIdx.map Prod.fst
  ((allGames.drop offset).take (batch_stop - offset)).all fun g =>
    allKeys.contains g.hash_id

/-- `ExcelParser.__get_matches_for_source`, for one batch of one source.

* `outputExists` models `os.path.exists(output_file)`, `checkpoint` the
  pickled resumable file (if any); the checkpoint file is deleted in either
  branch (`os.remove`), which has no bearing on the returned result set.
* `none` models the `IndexError` raised when `offset > total_rows`.
* The resume check recomputes the processed count as
  `len(results) + len(skipped)`, forms `new_offset`, and resumes iff the
  checkpoint's recorded hashes are a subset of the row hashes in
  `games[original_offset:new_offset]`; otherwise the batch restarts from
  scratch with a fresh result set. -/
def getMatchesForSource (idx : ProcessedIndex) (allGames : List ExcelGame)
    (clientSkip : ExcelGame → Bool) (clientMatch : ExcelGame → MatchGameBehavior)
    (offset batch_size : Nat) (outputExists : Bool)
    (checkpoint : Option GameMatchResultSet) : Option GameMatchResultSet :=
  let original_offset := offset
  let total_rows := allGames.length
  if offset > total_rows then none
  else
    let batch_stop := offset + batch_size
    let results0 := GameMatchResultSet.empty offset batch_size
    if outputExists && batchCovered idx allGames offset batch_stop then some results0
    else
      let st :=
        match checkpoint with
        | none => (results0, offset)
        | some ck =>
          let new_processed_count := ck.pyLen + ck.skipped.length
          let new_offset := original_offset + new_processed_count
          let window :=
            ((allGames.drop original_offset).take new_processed_count).map
              ExcelGame.hash_id
          if ck.allHashes.all (fun h => window.contains h) then (ck, new_offset)
          else (results0, offset)
      some (processRows idx allGames clientSkip clientMatch st.1
        (((allGames.drop st.2).take (batch_stop - st.2)).enum))

/-- The checkpoint written by the `asyncio.CancelledError` handler when a
batch is cancelled after `k` loop iterations: the in-flight result set at
that point. -/
def interruptedCheckpoint (idx : ProcessedIndex) (allGames : List ExcelGame)
    (clientSkip : ExcelGame → Bool) (clientMatch : ExcelGame → MatchGameBehavior)
    (offset batch_size k : Nat) : GameMatchResultSet :=
  processRows idx allGames clientSkip clientMatch
    (GameMatchResultSet.empty offset batch_size)
    ((((allGames.drop offset).take batch_size).enum).take k)

/-! ## Proof-support definitions and concrete sample data -/

/-- The backoff delay sequence `b, b^e, (b^e)^e, …` of `n` consecutive
`ExponentialBackoff.backoff` calls. -/
def geomList (b e : Nat) : Nat → List Nat
  | 0 => []
  | n + 1 => b :: geomList (b ^ e) e n

/-- The pending delay after `n` consecutive backoffs starting from `b`. -/
def iterPow (b e : Nat) : Nat → Nat
  | 0 => b
  | n + 1 => iterPow (b ^ e) e n

/-- A sample ledger row with the given title and hash. -/
def sampleGame (t h : List Char) : ExcelGame :=
  ⟨t, "nes".data, none, none, none, none, h⟩

/-- Sample rows. -/
def gameA : ExcelGame := sampleGame "t0".data "h0".data

/-- Sample rows. -/
def gameB : ExcelGame := sampleGame "t1".data "h1".data

/-- Sample rows. -/
def gameC : ExcelGame := sampleGame "t2".data "h2".data

/-- An adapter whose `should_skip` is always false. -/
def noSkip : ExcelGame → Bool := fun _ => false

/-- An adapter that matches every row with an empty candidate list except the
row with hash `h`, on which it raises `ImmediatelyStopStatusError`. -/
def stopOn (h : List Char) : ExcelGame → MatchGameBehavior := fun g =>
  if g.hash_id = h then .raisesImmediatelyStop else .returns []

/-- A fully populated sample row with no franchise. -/
def gTetris : ExcelGame :=
  ⟨"Tetris".data, "nes".data, some 1989, some "Nintendo".data,
   some "Nintendo".data, none, "hT".data⟩

/-- A "plain" character for the normalization idempotence analysis: ASCII,
not an ampersand (no HTML entity can start) and not an opening parenthesis
(no `" (XXXX)"` group can form). -/
def plainChar (c : Char) : Bool := c.toNat < 128 && c != '&' && c != '('

/-- Whether `fromRoman` accepts `p` with a value of at most 20 (the values
the default `roman_numeralize` converts). -/
def smallRoman (p : List Char) : Bool :=
  match fromRoman p with
  | some w => decide (w ≤ 20)
  | none => false

/-- The Roman numerals with value at most 20 accepted by `fromRoman`. -/
def valid20 : List (List Char) :=
  ["I", "II", "III", "IV", "V", "VI", "VII", "VIII", "IX", "X",
   "XI", "XII", "XIII", "XIV", "XV", "XVI", "XVII", "XVIII", "XIX", "XX"].map
    String.data

/-! # Theorems -/

/-! ## Backoff (claim C6) -/

/-- `runBackoffs` unfolds to the geometric delay list. -/
theorem runBackoffs_geom (e m : Nat) :
    ∀ (n b0 k : Nat), n + k ≤ m →
      runBackoffs n ⟨b0, e, m, k⟩ = some (geomList b0 e n, ⟨iterPow b0 e n, e, m, k + n⟩) := by
  intro n
  induction n with
  | zero => intro b0 k _; simp [runBackoffs, geomList, iterPow]
  | succ n ih =>
    intro b0 k h
    have hk : ¬ k + 1 > m := by omega
    have := ih (b0 ^ e) (k + 1) (by omega)
    simp only [runBackoffs, ExponentialBackoff.backoff, hk, if_false, this]
    simp [geomList, iterPow]
    omega

/-- Element `0` of a nonempty geometric delay list. -/
theorem geomList_head (b e n : Nat) (h : 0 < n) : (geomList b e n)[0]? = some b := by
  cases n with
  | zero => omega
  | succ n => simp [geomList]

/-- Consecutive elements of the geometric delay list satisfy the recurrence
`delay_{i+1} = delay_i ^ e`. -/
theorem geomList_succ (e : Nat) :
    ∀ (n b i : Nat), i + 1 < n →
      (geomList b e n)[i + 1]? = ((geomList b e n)[i]?).map (· ^ e) := by
  intro n
  induction n with
  | zero => intro b i h; omega
  | succ n ih =>
    intro b i h
    cases i with
    | zero =>
      cases n with
      | zero => omega
      | succ n => simp [geomList]
    | succ i =>
      have := ih (b ^ e) i (by omega)
      simpa [geomList] using this

/-- Length of the geometric delay list. -/
theorem geomList_length (e : Nat) : ∀ (n b : Nat), (geomList b e n).length = n := by
  intro n
  induction n with
  | zero => intro b; simp [geomList]
  | succ n ih => intro b; simp [geomList, ih]

/-- Claim C6: starting from a fresh `ExponentialBackoff(initial_backoff=b,
exponent=e, max_backoffs=m)`, `m` consecutive failures are each backed off,
the slept delays following the recurrence `delay_{i+1} = delay_i ^ e` with
`delay_0 = b`; the next (`m+1`-st) call raises `ResponseNotOkError` — the
terminal exhausted kind, a different constructor from a slept delay — rather
than delaying again. -/
theorem c6_backoff_exhausted (b e m : Nat) :
    runBackoffs m (ExponentialBackoff.init b e m) =
      some (geomList b e m, ⟨iterPow b e m, e, m, m⟩) ∧
    (ExponentialBackoff.mk (iterPow b e m) e m m).backoff =
      BackoffResult.responseNotOkError ∧
    (∀ d st, (ExponentialBackoff.mk (iterPow b e m) e m m).backoff ≠
      BackoffResult.slept d st) ∧
    (geomList b e m).length = m ∧
    (0 < m → (geomList b e m)[0]? = some b) ∧
    (∀ i, i + 1 < m → (geomList b e m)[i + 1]? = ((geomList b e m)[i]?).map (· ^ e)) := by
  refine ⟨?_, ?_, ?_, geomList_length e m b, geomList_head b e m, geomList_succ e m b⟩
  · have := runBackoffs_geom e m m b 0 (by omega)
    simpa [ExponentialBackoff.init] using this
  · simp [ExponentialBackoff.backoff]
  · intro d st
    simp [ExponentialBackoff.backoff]

/-- Witness for C6 at the source's default configuration (2, 2, 3): the three
backoffs sleep 2, 4 and 16 seconds and the fourth call raises. -/
theorem c6_backoff_exhausted_witness :
    runBackoffs 3 (ExponentialBackoff.init 2 2 3) = some ([2, 4, 16], ⟨256, 2, 3, 3⟩) ∧
    (ExponentialBackoff.mk 256 2 3 3).backoff = BackoffResult.responseNotOkError :=
  ⟨((c6_backoff_exhausted 2 2 3).1).trans (by decide),
    by have := (c6_backoff_exhausted 2 2 3).2.1; simpa using this⟩

/-! ## Fuzzy title equality (claims C7, C8, C10) -/

/-- Claim C7: `titles_equal_fuzzy("Final Fantasy VII", "Final Fantasy 7")` is
true and `titles_equal_fuzzy("Mega Man 2", "Mega Man 3")` is false; moreover
whenever the result is true neither via the normalized-prefix comparison nor
via the Pokémon special case — i.e. via the edit-distance branch — neither
input string ends in a digit (and both are nonempty). -/
theorem c7_fuzzy_examples_and_guard :
    titles_equal_fuzzy "Final Fantasy VII".data "Final Fantasy 7".data = some true ∧
    titles_equal_fuzzy "Mega Man 2".data "Mega Man 3".data = some false ∧
    ∀ t1 t2 : List Char,
      titles_equal_normalized (removeThe (t1.takeWhile (· ≠ ':')))
        (removeThe (t2.takeWhile (· ≠ ':'))) = false →
      pokemon_special_case t1 t2 = false →
      titles_equal_fuzzy t1 t2 = some true →
      (∃ c1, t1.getLast? = some c1 ∧ pyIsDigit c1 = false) ∧
      (∃ c2, t2.getLast? = some c2 ∧ pyIsDigit c2 = false) := by
  refine ⟨by decide, by decide, ?_⟩
  intro t1 t2 h1 h2 h3
  simp only [titles_equal_fuzzy, h1, h2] at h3
  split at h3
  case isTrue h => simp at h
  case isFalse =>
    split at h3
    case isFalse => simp at h3
    case isTrue =>
      split at h3
      case isFalse => simp at h3
      case isTrue =>
        split at h3
        case h_1 => simp at h3
        case h_2 c1 hc1 =>
          split at h3
          case isTrue => simp at h3
          case isFalse hd1 =>
            split at h3
            case h_1 => simp at h3
            case h_2 c2 hc2 =>
              split at h3
              case isTrue => simp at h3
              case isFalse hd2 =>
                exact ⟨⟨c1, hc1, by simpa using hd1⟩, ⟨c2, hc2, by simpa using hd2⟩⟩

/-- Witness for C7's guard at a concrete input that matches only via the
edit-distance branch. -/
theorem c7_fuzzy_examples_and_guard_witness :
    (∃ c1, ("abcd".data).getLast? = some c1 ∧ pyIsDigit c1 = false) ∧
    (∃ c2, ("abce".data).getLast? = some c2 ∧ pyIsDigit c2 = false) :=
  c7_fuzzy_examples_and_guard.2.2 "abcd".data "abce".data (by decide) (by decide)
    (by decide)

/-- Claim C8 (code bug): `titles_equal_fuzzy("ab", "")` raises `IndexError` —
modelled as `none` — because the guard `len(t_1) > 1` protects only the first
argument and the evaluation reaches `t_2[-1]` with `t_2` empty. -/
theorem c8_empty_second_title_raises :
    titles_equal_fuzzy "ab".data "".data = none := by decide

/-- Claim C10: `titles_equal_fuzzy` is not symmetric — the Pokémon special
case tests only its first argument, so
`titles_equal_fuzzy("Pokémon Red", "Pokemon Red Version")` is true while the
swapped call is false. -/
theorem c10_fuzzy_asymmetric :
    titles_equal_fuzzy "Pokémon Red".data "Pokemon Red Version".data = some true ∧
    titles_equal_fuzzy "Pokemon Red Version".data "Pokémon Red".data = some false :=
  ⟨by decide, by decide⟩

/-! ## Immediate-stop statuses (claim C2) -/

/-- Claim C2 counterexample: an `ImmediatelyStopStatusError` raised by a
source IS recorded as per-row errors — the batch loop catches it and stores
the exception as the error cause of every remaining row, contradicting the
claim's "not recorded as a per-row error". -/
theorem c2_stop_recorded_as_row_error :
    (getMatchesForSource ProcessedIndex.empty [gameA] noSkip (stopOn "h0".data)
        0 1 false none).map
      (fun rs => rs.errors.map fun e => (e.2.game.map ExcelGame.hash_id, e.2.error)) =
    some [(some "h0".data, some BatchError.immediatelyStopError)] := by decide

/-- Claim C2 (amended): a response status in the configured immediate-stop
set fails the request at once — one network attempt, no backoff, regardless
of backoff state or of what the network would have answered next;
`try_match_game` re-raises `ImmediatelyStopStatusError` as is (it is never
folded into the per-row `(success, matches, error)` tuple), so the batch loop
receives a distinguishable signal; the loop then stops processing the
source's remaining rows, but records the exception as the per-row error cause
of every game from the batch-relative index `i` onward in the full sheet. -/
theorem c2_immediate_stop_behavior :
    (∀ (stop : List Nat) (b : ExponentialBackoff) (s : Nat) (p : List Char)
        (rest : List NetAttempt),
      s ∈ stop → s ≠ 200 →
      doReq stop b (NetAttempt.ok s p :: rest) = some (DoReqOutcome.immediatelyStop, 1)) ∧
    (∀ (s : Bool) (ms : Option (List GameMatch)) (err : Option (List Char)),
      try_match_game false MatchGameBehavior.raisesImmediatelyStop ≠
        TryMatchResult.tuple s ms err) ∧
    (∀ (idx : ProcessedIndex) (allGames : List ExcelGame)
        (cs : ExcelGame → Bool) (cm : ExcelGame → MatchGameBehavior)
        (rs : GameMatchResultSet) (i : Nat) (g : ExcelGame)
        (rest : List (Nat × ExcelGame)),
      lookupExisting idx g = none → cs g = false →
      cm g = MatchGameBehavior.raisesImmediatelyStop →
      processRows idx allGames cs cm rs ((i, g) :: rest) =
        rs.extend
          ((allGames.drop i).map fun g' =>
            GameMatchResult.mk (some g') [] (some BatchError.immediatelyStopError))
          AppendLabel.error) := by
  refine ⟨?_, ?_, ?_⟩
  · intro stop b s p rest hs h200
    simp [doReq, h200, hs]
  · intro s ms err
    simp [try_match_game]
  · intro idx allGames cs cm rs i g rest h1 h2 h3
    simp [processRows, processRow, h1, h2, h3, try_match_game]

/-- Witness for C2 (amended) at concrete inputs. -/
theorem c2_immediate_stop_behavior_witness :
    doReq [403] (ExponentialBackoff.init 2 2 3)
      [NetAttempt.ok 403 [], NetAttempt.ok 200 []] =
      some (DoReqOutcome.immediatelyStop, 1) ∧
    processRows ProcessedIndex.empty [gameA] noSkip (stopOn "h0".data)
        (GameMatchResultSet.empty 0 1) [(0, gameA)] =
      (GameMatchResultSet.empty 0 1).extend
        (([gameA] : List ExcelGame).map fun g' =>
          GameMatchResult.mk (some g') [] (some BatchError.immediatelyStopError))
        AppendLabel.error :=
  ⟨c2_immediate_stop_behavior.1 [403] (ExponentialBackoff.init 2 2 3) 403 []
      [NetAttempt.ok 200 []] (by decide) (by decide),
    by
      have := c2_immediate_stop_behavior.2.2 ProcessedIndex.empty [gameA] noSkip
        (stopOn "h0".data) (GameMatchResultSet.empty 0 1) 0 gameA []
        (by decide) (by decide) (by decide)
      simpa using this⟩

/-! ## `validate` dimension handling (claim C4) -/

/-- Claim C4 counterexample: with titles equal and every candidate dimension
absent, `validate` reports `franchise_matched = true` (the row's franchise is
also absent, and `verify_franchise` is vacuously true in that case), not
`false` as the claim states for absent candidate data. -/
theorem c4_absent_franchise_vacuously_true :
    validate gTetris "Tetris".data none none none none none =
      some (ValidationInfo.mk true true false false false false true) := by decide

/-- Claim C4 (amended): when the titles are neither normalized-equal nor
fuzzy-equal, `validate` short-circuits to all-false; otherwise absent
candidate data (`None` or an empty list) yields `false` for the platform,
date, publisher and developer dimensions without raising, while the franchise
dimension yields `false` only when the row has a franchise — it is vacuously
`true` when both sides are absent. -/
theorem c4_validate_dimensions :
    (∀ (g : ExcelGame) (t : List Char) (ps : Option (List (List Char)))
        (ys : Option (List Int)) (pubs devs frs : Option (List (List Char))),
      titles_equal_normalized g.title t = false →
      titles_equal_fuzzy g.title t = some false →
      validate g t ps ys pubs devs frs =
        some (ValidationInfo.mk false false false false false false false)) ∧
    (∀ (g : ExcelGame) (t : List Char),
      titles_equal_normalized g.title t = true →
      validate g t none none none none none =
        some (ValidationInfo.mk true true false false false false
          (!pyTruthyOptStr g.franchise))) ∧
    (∀ (g : ExcelGame) (t : List Char),
      titles_equal_normalized g.title t = true →
      validate g t (some []) (some []) (some []) (some []) (some []) =
        some (ValidationInfo.mk true true false false false false
          (!pyTruthyOptStr g.franchise))) := by
  refine ⟨?_, ?_, ?_⟩
  · intro g t ps ys pubs devs frs h1 h2
    simp [validate, h1, h2]
  · intro g t h
    cases hfr : pyTruthyOptStr g.franchise <;>
      simp [validate, h, verify_component, verify_franchise, pyAnyStr, hfr]
  · intro g t h
    cases hfr : pyTruthyOptStr g.franchise <;>
      simp [validate, h, verify_component, verify_franchise, verify_platform,
        pyAnyStr, pyAnyInt, hfr]

/-- Witness for C4 (amended) at concrete inputs: a non-matching candidate
title short-circuits, and a matching one scores absent dimensions false
(franchise vacuously true for this franchise-less row). -/
theorem c4_validate_dimensions_witness :
    validate gTetris "Columns".data none none none none none =
      some (ValidationInfo.mk false false false false false false false) ∧
    validate gTetris "Tetris".data (some []) (some []) (some []) (some [])
        (some []) =
      some (ValidationInfo.mk true true false false false false
        (!pyTruthyOptStr gTetris.franchise)) :=
  ⟨c4_validate_dimensions.1 gTetris "Columns".data none none none none none
      (by decide) (by decide),
    c4_validate_dimensions.2.2 gTetris "Tetris".data (by decide)⟩

/-! ## The response-cache key (claim C5) -/

/-- Claim C5 counterexample: the cache key is NOT computed from the sorted
parameters — two requests with equal sorted parameter lists but different
dict insertion order get different keys, and two requests with different
(sorted) parameters but equal values get the same key, because
`_hash_request` joins only `params.values()` in insertion order. -/
theorem c5_key_not_sorted_params :
    (paramsSorted [("b".data, "2".data), ("a".data, "1".data)] =
        paramsSorted [("a".data, "1".data), ("b".data, "2".data)] ∧
      hash_request "u".data (some [("b".data, "2".data), ("a".data, "1".data)]) none ≠
        hash_request "u".data (some [("a".data, "1".data), ("b".data, "2".data)]) none) ∧
    (paramsSorted [("a".data, "1".data)] ≠ paramsSorted [("b".data, "1".data)] ∧
      hash_request "u".data (some [("a".data, "1".data)]) none =
        hash_request "u".data (some [("b".data, "1".data)]) none) := by decide

/-- Claim C5 (amended): the cache key string is
`url + ",".join(params.values() in dict order) + str(body)`; a request whose
key is not yet cached performs a network attempt and caches its 200 payload
under that key, and a second request with the identical `(url, params, body)`
returns the cached payload with zero network attempts. -/
theorem c5_cache_hit_on_identical_request (stop : List Nat)
    (cache : List (List Char × List Char)) (url : List Char)
    (params : Option (List (List Char × List Char))) (data : Option (List Char))
    (v : List Char) (attempts2 : List NetAttempt)
    (h : lookupA (hash_request url params data) cache = none) :
    request stop cache url params data [NetAttempt.ok 200 v] =
      some (DoReqOutcome.success v, (hash_request url params data, v) :: cache, 1) ∧
    request stop ((hash_request url params data, v) :: cache) url params data
        attempts2 =
      some (DoReqOutcome.success v, (hash_request url params data, v) :: cache, 0) := by
  constructor
  · simp [request, h, doReq]
  · simp [request, lookupA]

/-- Witness for C5 (amended) at concrete inputs. -/
theorem c5_cache_hit_on_identical_request_witness :
    request [] [] "u".data (some [("a".data, "1".data)]) none
        [NetAttempt.ok 200 "p".data] =
      some (DoReqOutcome.success "p".data,
        (hash_request "u".data (some [("a".data, "1".data)]) none, "p".data) :: [], 1) ∧
    request [] [(hash_request "u".data (some [("a".data, "1".data)]) none, "p".data)]
        "u".data (some [("a".data, "1".data)]) none [] =
      some (DoReqOutcome.success "p".data,
        (hash_request "u".data (some [("a".data, "1".data)]) none, "p".data) :: [], 0) :=
  c5_cache_hit_on_identical_request [] [] "u".data (some [("a".data, "1".data)])
    none "p".data [] (by decide)

/-! ## Result-set partition (claim C9) -/

/-- Claim C9 (code bug): with a nonzero batch offset, an immediate-stop error
puts a row into both the success and the error map — the handler extends the
errors with `games[i:]` using the batch-relative loop index against the full
sheet.  Here the batch is rows 1..2 of a 3-row sheet; row `h1` succeeds, row
`h2` raises, and `h1` ends up in both maps. -/
theorem c9_row_in_two_outcome_sets :
    ∃ rs,
      getMatchesForSource ProcessedIndex.empty [gameA, gameB, gameC] noSkip
        (stopOn "h2".data) 1 2 false none = some rs ∧
      "h1".data ∈ entryHashes rs.successes ∧ "h1".data ∈ entryHashes rs.errors := by
  refine ⟨_, rfl, ?_, ?_⟩ <;> decide

/-! ## Checkpoint resume (claim C1) -/

/-- Claim C1 (code bug): a batch of rows 0..1 interrupted after row 0 (with
the genuine in-flight checkpoint) does NOT resume to the same result as the
uninterrupted run when the remaining row raises an immediate-stop error: the
uninterrupted run records only `h1` as an error, while the resumed run — whose
loop restarts its `enumerate` index at 0 — records error entries for
`games[0:]`, so row `h0` appears as a success AND as an error and the final
row-hash→outcome mappings differ. -/
theorem c1_resume_differs_from_uninterrupted :
    ∃ uninterrupted resumed,
      getMatchesForSource ProcessedIndex.empty [gameA, gameB] noSkip
        (stopOn "h1".data) 0 2 false none = some uninterrupted ∧
      getMatchesForSource ProcessedIndex.empty [gameA, gameB] noSkip
        (stopOn "h1".data) 0 2 false
        (some (interruptedCheckpoint ProcessedIndex.empty [gameA, gameB] noSkip
          (stopOn "h1".data) 0 2 1)) = some resumed ∧
      entryHashes uninterrupted.successes = ["h0".data] ∧
      entryHashes uninterrupted.errors = ["h1".data] ∧
      entryHashes resumed.successes = ["h0".data] ∧
      entryHashes resumed.errors = ["h0".data, "h1".data] ∧
      resumed ≠ uninterrupted := by
  refine ⟨_, _, rfl, rfl, ?_, ?_, ?_, ?_, ?_⟩ <;> decide

/-! ## Normalization idempotence analysis (claim C3)

The first Roman-numeral pass runs before `html.unescape` and before the
`" (XXXX)"` removal, so those two stages can expose a fresh Roman-numeral
token that only the *second* `normalize` converts — idempotence fails in
general (`c3_normalize_not_idempotent`) but holds on ASCII strings free of
`'&'` and `'('` (`c3_normalize_idempotent_on_plain`). -/

/-- Evaluating `Char.ofNat` below the surrogate range. -/
theorem char_toNat_ofNat_lt {n : Nat} (h : n < 55296) : (Char.ofNat n).toNat = n := by
  have hv : n.isValidChar := Or.inl h
  rw [Char.ofNat, dif_pos hv]
  rfl

/-- Transfer of a decidable character property from the 128 ASCII code points
to every ASCII character. -/
theorem ascii_lift (P : Char → Prop) [DecidablePred P]
    (hP : ∀ n, n < 128 → P (Char.ofNat n)) :
    ∀ c : Char, c.toNat < 128 → P c := by
  intro c hc
  have := hP c.toNat hc
  rwa [Char.ofNat_toNat] at this

/-- Case-folding is idempotent on ASCII characters. -/
theorem casefold_idem_ascii :
    ∀ c : Char, c.toNat < 128 → pyCasefoldChar (pyCasefoldChar c) = pyCasefoldChar c := by
  refine ascii_lift _ ?_
  intro n hn
  interval_cases n <;> decide

/-- Case-folding keeps ASCII characters ASCII. -/
theorem casefold_ascii :
    ∀ c : Char, c.toNat < 128 → (pyCasefoldChar c).toNat < 128 := by
  refine ascii_lift _ ?_
  intro n hn
  interval_cases n <;> decide

/-- Case-folding commutes with the alphanumeric test on ASCII characters. -/
theorem alnum_casefold_ascii :
    ∀ c : Char, c.toNat < 128 → pyIsAlnum (pyCasefoldChar c) = pyIsAlnum c := by
  refine ascii_lift _ ?_
  intro n hn
  interval_cases n <;> decide

/-- Uppercasing after case-folding equals plain uppercasing on ASCII. -/
theorem upper_casefold_ascii :
    ∀ c : Char, c.toNat < 128 → pyUpperChar (pyCasefoldChar c) = pyUpperChar c := by
  refine ascii_lift _ ?_
  intro n hn
  interval_cases n <;> decide

/-- Case-folding introduces no ampersand on ASCII characters. -/
theorem casefold_ne_amp_ascii :
    ∀ c : Char, c.toNat < 128 → c ≠ '&' → pyCasefoldChar c ≠ '&' := by
  refine ascii_lift _ ?_
  intro n hn
  interval_cases n <;> decide

/-- Case-folding introduces no opening parenthesis on ASCII characters. -/
theorem casefold_ne_paren_ascii :
    ∀ c : Char, c.toNat < 128 → c ≠ '(' → pyCasefoldChar c ≠ '(' := by
  refine ascii_lift _ ?_
  intro n hn
  interval_cases n <;> decide

/-- ASCII decimal digits are fixed by case-folding, uppercasing, and are
alphanumeric. -/
theorem digit_char_facts :
    ∀ c : Char, c.toNat < 128 → 48 ≤ c.toNat → c.toNat ≤ 57 →
      pyCasefoldChar c = c ∧ pyUpperChar c = c ∧ pyIsAlnum c = true := by
  refine ascii_lift _ ?_
  intro n hn
  interval_cases n <;> decide

/-- Macron replacement fixes ASCII characters. -/
theorem romanizeChar_ascii :
    ∀ c : Char, c.toNat < 128 →
      (if c = 'ō' then 'o' else if c = 'ū' then 'u'
       else if c = 'Ō' then 'O' else if c = 'Ū' then 'U' else c) = c := by
  refine ascii_lift _ ?_
  intro n hn
  interval_cases n <;> decide

/-- Trademark glyphs are not ASCII. -/
theorem tm_char_ascii :
    ∀ c : Char, c.toNat < 128 → (!(c == '™' || c == '®' || c == '©')) = true := by
  refine ascii_lift _ ?_
  intro n hn
  interval_cases n <;> decide

/-- NFKD fixes ASCII characters. -/
theorem nfkdChar_ascii : ∀ c : Char, c.toNat < 128 → nfkdChar c = [c] := by
  refine ascii_lift _ ?_
  intro n hn
  interval_cases n <;> decide

/-- Whitespace is never alphanumeric. -/
theorem space_not_alnum {c : Char} (h : pyIsSpace c = true) : pyIsAlnum c = false := by
  simp [pyIsSpace] at h
  rcases h with ((((h | h) | h) | h) | h) | h <;> subst h <;> decide

/-- Alphanumeric characters are not whitespace, ampersand, or parenthesis. -/
theorem alnum_not_special {c : Char} (h : pyIsAlnum c = true) :
    pyIsSpace c = false ∧ c ≠ '&' ∧ c ≠ '(' := by
  refine ⟨?_, ?_, ?_⟩
  · cases hs : pyIsSpace c with
    | false => rfl
    | true => rw [space_not_alnum hs] at h; cases h
  · intro hc; rw [hc] at h; exact absurd h (by decide)
  · intro hc; rw [hc] at h; exact absurd h (by decide)

/-- A map that fixes every member is the identity. -/
theorem map_id_of_mem {f : Char → Char} :
    ∀ {s : List Char}, (∀ c ∈ s, f c = c) → s.map f = s := by
  intro s h
  induction s with
  | nil => rfl
  | cons c rest ih =>
    simp only [List.map_cons, h c (by simp)]
    rw [ih fun x hx => h x (by simp [hx])]

/-- A `flatMap` whose function wraps every member in a singleton is the
identity. -/
theorem flatMap_id_of_mem {g : Char → List Char} :
    ∀ {s : List Char}, (∀ c ∈ s, g c = [c]) → s.flatMap g = s := by
  intro s h
  induction s with
  | nil => rfl
  | cons c rest ih =>
    simp only [List.flatMap_cons, h c (by simp)]
    rw [ih fun x hx => h x (by simp [hx])]
    rfl

/-- `html.unescape` is the identity on ampersand-free text. -/
theorem pyUnescapeAux_no_amp :
    ∀ (fuel : Nat) (l : List Char), '&' ∉ l → pyUnescapeAux fuel l = l := by
  intro fuel
  induction fuel with
  | zero => intro l _; rfl
  | succ fuel ih =>
    intro l h
    cases l with
    | nil => rfl
    | cons c rest =>
      have hc : ¬ c = '&' := fun he => h (by simp [he])
      have hr : '&' ∉ rest := fun hm => h (by simp [hm])
      simp [pyUnescapeAux, hc, ih rest hr]

/-- A parenthesis-free list never matches the `" (XXXX)"` shape. -/
theorem matchesParenFour_no_paren {l : List Char} (h : '(' ∉ l) :
    matchesParenFour l = false := by
  unfold matchesParenFour
  split
  · exact absurd (by simp) h
  · rfl

/-- Removing `" (XXXX)"` groups is the identity on parenthesis-free text. -/
theorem removeParenFourAux_no_paren :
    ∀ (fuel : Nat) (l : List Char), '(' ∉ l → removeParenFourAux fuel l = l := by
  intro fuel
  induction fuel with
  | zero => intro l _; rfl
  | succ fuel ih =>
    intro l h
    cases l with
    | nil => rfl
    | cons c rest =>
      have hr : '(' ∉ rest := fun hm => h (by simp [hm])
      simp [removeParenFourAux, matchesParenFour_no_paren hr, ih rest hr]

/-- Filtering commutes with dropping a prefix of characters the filter
rejects. -/
theorem filter_dropWhile {p q : Char → Bool} (hpq : ∀ c, q c = true → p c = false) :
    ∀ l : List Char, (l.dropWhile q).filter p = l.filter p := by
  intro l
  induction l with
  | nil => rfl
  | cons c rest ih =>
    rw [List.dropWhile_cons]
    by_cases hq : q c = true
    · rw [if_pos hq, ih, List.filter_cons, hpq c hq]
      simp
    · rw [if_neg hq]

/-- Filtering out whitespace commutes with `strip`. -/
theorem filter_pyStrip {p : Char → Bool} (hp : ∀ c, pyIsSpace c = true → p c = false)
    (l : List Char) : (pyStrip l).filter p = l.filter p := by
  unfold pyStrip
  rw [List.filter_reverse, filter_dropWhile hp, List.filter_reverse,
    List.reverse_reverse, filter_dropWhile hp]

/-- Characters of a whitespace-split token come from the accumulator or the
input. -/
theorem splitWsAux_chars :
    ∀ (s cur t : List Char), t ∈ splitWsAux cur s → ∀ c ∈ t, c ∈ cur ∨ c ∈ s := by
  intro s
  induction s with
  | nil =>
    intro cur t ht c hc
    unfold splitWsAux at ht
    split at ht
    · simp at ht
    · simp at ht
      subst ht
      exact Or.inl (by simpa using hc)
  | cons a rest ih =>
    intro cur t ht c hc
    unfold splitWsAux at ht
    split at ht
    · split at ht
      · rcases ih [] t ht c hc with h | h
        · simp at h
        · exact Or.inr (by simp [h])
      · rcases List.mem_cons.mp ht with he | hm
        · subst he
          exact Or.inl (by simpa using hc)
        · rcases ih [] t hm c hc with h | h
          · simp at h
          · exact Or.inr (by simp [h])
    · rcases ih (a :: cur) t ht c hc with h | h
      · rcases List.mem_cons.mp h with he | hm
        · exact Or.inr (by simp [he])
        · exact Or.inl hm
      · exact Or.inr (by simp [h])

/-- Splitting a nonempty whitespace-free string yields a single token. -/
theorem splitWsAux_single :
    ∀ (s cur : List Char), s ≠ [] → (∀ c ∈ s, pyIsSpace c = false) →
      splitWsAux cur s = [cur.reverse ++ s] := by
  intro s
  induction s with
  | nil => intro cur h _; exact absurd rfl h
  | cons a rest ih =>
    intro cur _ hns
    have ha : pyIsSpace a = false := hns a (by simp)
    unfold splitWsAux
    rw [ha]
    simp only [Bool.false_eq_true, if_false]
    cases hrest : rest with
    | nil =>
      simp [splitWsAux]
    | cons b rest2 =>
      rw [← hrest, ih (a :: cur) (by simp [hrest]) fun c hcm => hns c (by simp [hcm])]
      simp

/-- Characters of a space-join come from the parts or are spaces. -/
theorem joinSpace_chars :
    ∀ (ts : List (List Char)) (c : Char), c ∈ joinSpace ts →
      (∃ t ∈ ts, c ∈ t) ∨ c = ' ' := by
  intro ts
  induction ts with
  | nil => intro c hc; simp [joinSpace] at hc
  | cons t rest ih =>
    intro c hc
    cases rest with
    | nil =>
      simp only [joinSpace] at hc
      exact Or.inl ⟨t, by simp, hc⟩
    | cons t2 rest2 =>
      simp only [joinSpace] at hc
      rcases List.mem_append.mp hc with h | h
      · exact Or.inl ⟨t, by simp, h⟩
      · rcases List.mem_cons.mp h with he | hm
        · exact Or.inr he
        · rcases ih c hm with ⟨t', ht', hc'⟩ | he
          · exact Or.inl ⟨t', by simp [ht'], hc'⟩
          · exact Or.inr he

/-- A filter that rejects spaces turns a space-join into a concatenation of
filtered parts. -/
theorem filter_joinSpace {p : Char → Bool} (hp : p ' ' = false) :
    ∀ ts : List (List Char), (joinSpace ts).filter p = (ts.map (List.filter p)).flatten := by
  intro ts
  induction ts with
  | nil => rfl
  | cons t rest ih =>
    cases rest with
    | nil => simp [joinSpace]
    | cons t2 rest2 =>
      simp only [joinSpace, List.filter_append, List.map_cons, List.flatten]
      rw [List.filter_cons, hp]
      simp only [Bool.false_eq_true, if_false]
      rw [ih]
      simp [joinSpace]

/-- A character map fixing `' '` distributes over a space-join. -/
theorem map_joinSpace {f : Char → Char} (hf : f ' ' = ' ') :
    ∀ ts : List (List Char), (joinSpace ts).map f = joinSpace (ts.map (List.map f)) := by
  intro ts
  induction ts with
  | nil => rfl
  | cons t rest ih =>
    cases rest with
    | nil => simp [joinSpace]
    | cons t2 rest2 =>
      simp only [joinSpace, List.map_append, List.map_cons, hf]
      rw [ih]
      simp [joinSpace]

/-- `natDigits` is never empty. -/
theorem natDigits_ne_nil (n : Nat) : natDigits n ≠ [] := by
  unfold natDigits natDigitsAux
  by_cases h : n < 10 <;> simp [h]

/-- Every character of `natDigits` is an ASCII decimal digit. -/
theorem natDigitsAux_digits :
    ∀ (fuel n : Nat) (c : Char), c ∈ natDigitsAux fuel n →
      48 ≤ c.toNat ∧ c.toNat ≤ 57 := by
  intro fuel
  induction fuel with
  | zero => intro n c hc; simp [natDigitsAux] at hc
  | succ fuel ih =>
    intro n c hc
    have hd : ∀ m : Nat, (digitChar10 m).toNat = 48 + m % 10 := by
      intro m
      have : 48 + m % 10 < 55296 := by have := Nat.mod_lt m (by omega : 0 < 10); omega
      exact char_toNat_ofNat_lt this
    unfold natDigitsAux at hc
    by_cases h : n < 10
    · rw [if_pos h] at hc
      simp at hc
      subst hc
      rw [hd n]
      have := Nat.mod_lt n (by omega : 0 < 10)
      omega
    · rw [if_neg h] at hc
      rcases List.mem_append.mp hc with hm | hm
      · exact ih _ c hm
      · simp at hm
        subst hm
        rw [hd n]
        have := Nat.mod_lt n (by omega : 0 < 10)
        omega

/-- Every character of `natDigits` is an ASCII decimal digit. -/
theorem natDigits_digits {n : Nat} {c : Char} (hc : c ∈ natDigits n) :
    48 ≤ c.toNat ∧ c.toNat ≤ 57 :=
  natDigitsAux_digits (n + 1) n c hc

/-- Characters of a Roman-numeralized token come from the token or are
digits. -/
theorem tryRomanNumeralize_chars {maxN : Nat} {t : List Char} {c : Char}
    (hc : c ∈ tryRomanNumeralize maxN t) :
    c ∈ t ∨ (48 ≤ c.toNat ∧ c.toNat ≤ 57) := by
  unfold tryRomanNumeralize at hc
  split at hc
  · exact Or.inl hc
  · split at hc
    · exact Or.inl hc
    · exact Or.inr (natDigits_digits hc)

/-- Characterization of `normalize` on plain (ASCII, ampersand-free,
parenthesis-free) strings: the pipeline reduces to Roman-numeralizing each
whitespace token, case-folding, and keeping the alphanumerics. -/
theorem normalize_plain (s : List Char) (hs : ∀ c ∈ s, plainChar c = true) :
    normalize s =
      ((pySplitWs s).map fun t =>
        (pyCasefold (tryRomanNumeralize 20 t)).filter pyIsAlnum).flatten := by
  have hs3 : ∀ c ∈ s, c.toNat < 128 ∧ c ≠ '&' ∧ c ≠ '(' := by
    intro c hc
    have := hs c hc
    simp only [plainChar, Bool.and_eq_true, decide_eq_true_eq, bne_iff_ne] at this
    exact ⟨this.1.1, this.1.2, this.2⟩
  have hs_ascii : ∀ c ∈ s, c.toNat < 128 := fun c hc => (hs3 c hc).1
  have h_tm : s.filter (fun c => !(c == '™' || c == '®' || c == '©')) = s :=
    List.filter_eq_self.mpr fun c hc => tm_char_ascii c (hs_ascii c hc)
  have h_rom : romanize s = s :=
    map_id_of_mem fun c hc => romanizeChar_ascii c (hs_ascii c hc)
  have h_tok_chars : ∀ t ∈ pySplitWs s, ∀ c ∈ t, c ∈ s := by
    intro t ht c hc
    rcases splitWsAux_chars s [] t ht c hc with h | h
    · simp at h
    · exact h
  have hJ_chars : ∀ c ∈ roman_numeralize 20 s, c.toNat < 128 ∧ c ≠ '&' ∧ c ≠ '(' := by
    intro c hc
    rcases joinSpace_chars _ c hc with ⟨t', ht', hc'⟩ | he
    · rcases List.mem_map.mp ht' with ⟨t, ht, rfl⟩
      rcases tryRomanNumeralize_chars hc' with h | h
      · exact hs3 c (h_tok_chars t ht c h)
      · refine ⟨by omega, ?_, ?_⟩ <;> intro he <;> rw [he] at h <;> revert h <;> decide
    · subst he
      exact ⟨by decide, by decide, by decide⟩
  have h_unesc : pyUnescape (roman_numeralize 20 s) = roman_numeralize 20 s :=
    pyUnescapeAux_no_amp _ _ fun hm => (hJ_chars '&' hm).2.1 rfl
  have hY_chars : ∀ c ∈ pyCasefold (roman_numeralize 20 s),
      c.toNat < 128 ∧ c ≠ '&' ∧ c ≠ '(' := by
    intro c hc
    rcases List.mem_map.mp hc with ⟨c0, hc0, rfl⟩
    have h0 := hJ_chars c0 hc0
    exact ⟨casefold_ascii c0 h0.1, casefold_ne_amp_ascii c0 h0.1 h0.2.1,
      casefold_ne_paren_ascii c0 h0.1 h0.2.2⟩
  have h_amp : (pyCasefold (roman_numeralize 20 s)).flatMap
      (fun c => if c = '&' then ['a', 'n', 'd'] else [c]) =
      pyCasefold (roman_numeralize 20 s) :=
    flatMap_id_of_mem fun c hc => by rw [if_neg (hY_chars c hc).2.1]
  have h_rp4 : removeParenFour (pyCasefold (roman_numeralize 20 s)) =
      pyCasefold (roman_numeralize 20 s) :=
    removeParenFourAux_no_paren _ _ fun hm => (hY_chars '(' hm).2.2 rfl
  have h_nfkd : pyNFKD (pyCasefold (roman_numeralize 20 s)) =
      pyCasefold (roman_numeralize 20 s) :=
    flatMap_id_of_mem fun c hc => nfkdChar_ascii c (hY_chars c hc).1
  unfold normalize
  rw [h_tm, h_rom, h_unesc, h_amp, h_rp4, h_nfkd,
    filter_pyStrip (fun c h => space_not_alnum h)]
  show (List.map pyCasefoldChar (joinSpace ((pySplitWs s).map (tryRomanNumeralize 20)))).filter
      pyIsAlnum = _
  rw [map_joinSpace (by decide), filter_joinSpace (by decide), List.map_map, List.map_map]
  rfl

/-- `takeCount` decomposes its input. -/
theorem takeCount_decomp (ch : Char) :
    ∀ (max : Nat) (l : List Char),
      l = List.replicate (takeCount ch max l).1 ch ++ (takeCount ch max l).2 := by
  intro max
  induction max with
  | zero => intro l; rfl
  | succ max ih =>
    intro l
    cases l with
    | nil => rfl
    | cons x rest =>
      by_cases hx : x = ch
      · subst hx
        have := ih rest
        simp only [takeCount, if_pos rfl]
        conv_lhs => rw [this]
        simp [List.replicate_succ]
      · simp [takeCount, hx]

/-- `takeCount` never exceeds its bound. -/
theorem takeCount_le (ch : Char) :
    ∀ (max : Nat) (l : List Char), (takeCount ch max l).1 ≤ max := by
  intro max
  induction max with
  | zero => intro l; simp [takeCount]
  | succ max ih =>
    intro l
    cases l with
    | nil => simp [takeCount]
    | cons x rest =>
      by_cases hx : x = ch
      · subst hx
        have := ih rest
        simp [takeCount]
        omega
      · simp [takeCount, hx]

/-- A hundreds-group value of at most 20 means the group consumed nothing. -/
theorem romanHundreds_small :
    ∀ (l : List Char) (h : Nat) (r : List Char),
      romanHundreds l = (h, r) → h ≤ 20 → h = 0 ∧ r = l := by
  intro l h r heq hle
  unfold romanHundreds at heq
  split at heq
  · injection heq with h1 _; omega
  · injection heq with h1 _; omega
  · injection heq with h1 _; omega
  · injection heq with h1 h2
    have hc := takeCount_decomp 'C' 3 l
    have h0 : (takeCount 'C' 3 l).1 = 0 := by omega
    rw [h0] at hc
    simp at hc
    exact ⟨by omega, by rw [← h2, ← hc]⟩

/-- A tens-group value of at most 20 means the group consumed at most two
`'X'`s. -/
theorem romanTens_small :
    ∀ (l : List Char) (t : Nat) (r : List Char),
      romanTens l = (t, r) → t ≤ 20 →
      ∃ k, k ≤ 2 ∧ t = 10 * k ∧ l = List.replicate k 'X' ++ r := by
  intro l t r heq hle
  unfold romanTens at heq
  split at heq
  · injection heq with h1 _; omega
  · injection heq with h1 _; omega
  · injection heq with h1 _; omega
  · injection heq with h1 h2
    have hc := takeCount_decomp 'X' 3 l
    refine ⟨(takeCount 'X' 3 l).1, by omega, by omega, ?_⟩
    rw [← h2]
    exact hc

/-- The units group consumes one of the ten unit shapes. -/
theorem romanUnits_inv :
    ∀ (l : List Char) (u : Nat) (r : List Char),
      romanUnits l = (u, r) →
      ∃ us, l = us ++ r ∧
        ((u = 9 ∧ us = ['I', 'X']) ∨ (u = 4 ∧ us = ['I', 'V']) ∨
         (∃ j, j ≤ 3 ∧ u = 5 + j ∧ us = 'V' :: List.replicate j 'I') ∨
         (∃ j, j ≤ 3 ∧ u = j ∧ us = List.replicate j 'I')) := by
  intro l u r heq
  unfold romanUnits at heq
  split at heq
  · next rest =>
    injection heq with h1 h2
    subst h2
    exact ⟨['I', 'X'], by simp, Or.inl ⟨h1.symm, rfl⟩⟩
  · next rest =>
    injection heq with h1 h2
    subst h2
    exact ⟨['I', 'V'], by simp, Or.inr (Or.inl ⟨h1.symm, rfl⟩)⟩
  · next rest =>
    injection heq with h1 h2
    have hc := takeCount_decomp 'I' 3 rest
    have hb := takeCount_le 'I' 3 rest
    refine ⟨'V' :: List.replicate (takeCount 'I' 3 rest).1 'I', ?_,
      Or.inr (Or.inr (Or.inl ⟨(takeCount 'I' 3 rest).1, hb, h1.symm, rfl⟩))⟩
    rw [← h2]
    simpa using hc
  · injection heq with h1 h2
    have hc := takeCount_decomp 'I' 3 l
    have hb := takeCount_le 'I' 3 l
    refine ⟨List.replicate (takeCount 'I' 3 l).1 'I', ?_,
      Or.inr (Or.inr (Or.inr ⟨(takeCount 'I' 3 l).1, hb, h1.symm, rfl⟩))⟩
    rw [← h2]
    exact hc

/-- Inversion of `fromRoman` for small values: every Roman numeral of value
at most 20 is one of the twenty listed strings. -/
theorem fromRoman_small_mem {c : List Char} {v : Nat}
    (hv : fromRoman c = some v) (hle : v ≤ 20) : c ∈ valid20 := by
  unfold fromRoman at hv
  by_cases hc : c.isEmpty
  · rw [if_pos hc] at hv; cases hv
  · rw [if_neg hc] at hv
    split at hv
    case neg.isFalse => cases hv
    case neg.isTrue hemp =>
      injection hv with hv
      have hm0 : (takeCount 'M' 4 c).1 = 0 := by omega
      have hMd := takeCount_decomp 'M' 4 c
      rw [hm0] at hMd
      simp at hMd
      obtain ⟨hh0, hh2⟩ := romanHundreds_small (takeCount 'M' 4 c).2
        (romanHundreds (takeCount 'M' 4 c).2).1
        (romanHundreds (takeCount 'M' 4 c).2).2 Prod.mk.eta.symm (by omega)
      obtain ⟨k, hk2, hkt, hkdec⟩ :=
        romanTens_small (romanHundreds (takeCount 'M' 4 c).2).2
          (romanTens (romanHundreds (takeCount 'M' 4 c).2).2).1
          (romanTens (romanHundreds (takeCount 'M' 4 c).2).2).2 Prod.mk.eta.symm (by omega)
      obtain ⟨us, husdec, hus⟩ :=
        romanUnits_inv (romanTens (romanHundreds (takeCount 'M' 4 c).2).2).2
          (romanUnits (romanTens (romanHundreds (takeCount 'M' 4 c).2).2).2).1
          (romanUnits (romanTens (romanHundreds (takeCount 'M' 4 c).2).2).2).2
          Prod.mk.eta.symm
      have hr4 :
          (romanUnits (romanTens (romanHundreds (takeCount 'M' 4 c).2).2).2).2 = [] := by
        simpa using hemp
      rw [hr4, List.append_nil] at husdec
      have hcdec : c = List.replicate k 'X' ++ us := by
        rw [hMd, ← hh2, hkdec, husdec]
      have hcne : c ≠ [] := by simpa using hc
      rw [hcdec] at hcne ⊢
      rcases hus with ⟨hu, rfl⟩ | ⟨hu, rfl⟩ | ⟨j, hj, hu, rfl⟩ | ⟨j, hj, hu, rfl⟩
      · have hb : 10 * k + 9 ≤ 20 := by omega
        interval_cases k <;> first | decide | omega
      · have hb : 10 * k + 4 ≤ 20 := by omega
        interval_cases k <;> first | decide | omega
      · have hb : 10 * k + (5 + j) ≤ 20 := by omega
        interval_cases k <;> interval_cases j <;> first | decide | omega
      · have hb : 10 * k + j ≤ 20 := by omega
        interval_cases k <;> interval_cases j <;>
          first | decide | omega | (simp at hcne)

/-- Characters of the twenty small numerals are `'X'`, `'V'` or `'I'`. -/
theorem valid20_chars : ∀ c ∈ valid20, ∀ ch ∈ c, ch = 'X' ∨ ch = 'V' ∨ ch = 'I' := by
  decide

/-- Every nonempty contiguous substring (listed via `tails`/`inits`) of a
small numeral is itself a small numeral. -/
theorem valid20_infix_core :
    ∀ c ∈ valid20, ∀ p ∈ c.tails.flatMap List.inits, p ≠ [] → smallRoman p = true := by
  decide

/-- `smallRoman` unpacked. -/
theorem smallRoman_spec {p : List Char} (h : smallRoman p = true) :
    ∃ w, fromRoman p = some w ∧ w ≤ 20 := by
  unfold smallRoman at h
  split at h
  · next w heq => exact ⟨w, heq, by simpa using h⟩
  · cases h

/-- An explicit three-way split of a list exhibits the middle part among the
prefixes of its suffixes. -/
theorem mem_tails_flatMap_inits {c p pre post : List Char} (h : c = pre ++ p ++ post) :
    p ∈ c.tails.flatMap List.inits := by
  rw [List.mem_flatMap]
  refine ⟨p ++ post, ?_, ?_⟩
  · rw [List.mem_tails]
    exact ⟨pre, by rw [h, List.append_assoc]⟩
  · rw [List.mem_inits]
    exact ⟨post, rfl⟩

/-- Every member of a list of parts occurs contiguously in the
concatenation. -/
theorem flatten_decomp {α : Type} :
    ∀ (parts : List (List α)) (p : List α), p ∈ parts →
      ∃ pre post, parts.flatten = pre ++ p ++ post := by
  intro parts
  induction parts with
  | nil => intro p hp; simp at hp
  | cons q rest ih =>
    intro p hp
    rcases List.mem_cons.mp hp with rfl | hm
    · exact ⟨[], rest.flatten, by simp⟩
    · obtain ⟨pre, post, hdec⟩ := ih p hm
      exact ⟨q ++ pre, post, by simp [hdec, List.append_assoc]⟩

/-- If every part is either a nonempty digit string or fails the small-Roman
test, their concatenation is never a Roman numeral of value at most 20. -/
theorem parts_flatten_not_small (parts : List (List Char))
    (hp : ∀ p ∈ parts,
      (p ≠ [] ∧ ∀ ch ∈ p, 48 ≤ ch.toNat ∧ ch.toNat ≤ 57) ∨
      (fromRoman p = none ∨ ∃ w, fromRoman p = some w ∧ 20 < w)) :
    ∀ v, fromRoman parts.flatten = some v → 20 < v := by
  intro v hv
  by_contra hle
  push_neg at hle
  have hmem : parts.flatten ∈ valid20 := fromRoman_small_mem hv hle
  have hne : parts.flatten ≠ [] := by
    intro h0
    rw [h0] at hv
    simp [fromRoman] at hv
  obtain ⟨p, hpmem, hpne⟩ : ∃ p ∈ parts, p ≠ [] := by
    by_contra hall
    push_neg at hall
    exact hne (List.flatten_eq_nil_iff.mpr hall)
  obtain ⟨pre, post, hdec⟩ := flatten_decomp parts p hpmem
  rcases hp p hpmem with ⟨_, hdig⟩ | hrom
  · obtain ⟨ch, hch⟩ := List.exists_mem_of_ne_nil p hpne
    have hin : ch ∈ parts.flatten := by
      rw [hdec]
      simp [hch]
    have hXVI := valid20_chars _ hmem ch hin
    have hd := hdig ch hch
    rcases hXVI with rfl | rfl | rfl <;> revert hd <;> decide
  · have hsmall := valid20_infix_core _ hmem p (mem_tails_flatMap_inits hdec) hpne
    obtain ⟨w, hw, hwle⟩ := smallRoman_spec hsmall
    rcases hrom with hnone | ⟨w', hw', hgt⟩
    · rw [hnone] at hw; cases hw
    · rw [hw'] at hw
      injection hw with hw
      omega

/-- Characters of a whitespace token come from the split string. -/
theorem pySplitWs_chars {s t : List Char} (ht : t ∈ pySplitWs s) : ∀ c ∈ t, c ∈ s := by
  intro c hc
  rcases splitWsAux_chars s [] t ht c hc with h | h
  · simp at h
  · exact h

/-- Uppercasing distributes over concatenation of parts. -/
theorem pyUpper_flatten :
    ∀ L : List (List Char), pyUpper L.flatten = (L.map pyUpper).flatten := by
  intro L
  induction L with
  | nil => rfl
  | cons x rest ih =>
    show pyUpper (x ++ rest.flatten) = _
    unfold pyUpper at ih ⊢
    rw [List.map_append, ih]
    rfl

/-- On an ASCII token, uppercasing the folded-and-filtered form equals
uppercasing the filtered form. -/
theorem upper_part_eq {t : List Char} (ht : ∀ c ∈ t, c.toNat < 128) :
    pyUpper ((pyCasefold t).filter pyIsAlnum) = pyUpper (t.filter pyIsAlnum) := by
  show ((t.map pyCasefoldChar).filter pyIsAlnum).map pyUpperChar =
    (t.filter pyIsAlnum).map pyUpperChar
  rw [List.filter_map, List.map_map]
  have h1 : t.filter (pyIsAlnum ∘ pyCasefoldChar) = t.filter pyIsAlnum :=
    List.filter_congr fun c hc => by
      show pyIsAlnum (pyCasefoldChar c) = pyIsAlnum c
      exact alnum_casefold_ascii c (ht c hc)
  rw [h1]
  apply List.map_congr_left
  intro c hc
  exact upper_casefold_ascii c (ht c (List.mem_of_mem_filter hc))

/-- The folded-filtered-uppercased form of a digit string is itself. -/
theorem upper_part_digits (w : Nat) :
    pyUpper ((pyCasefold (natDigits w)).filter pyIsAlnum) = natDigits w := by
  have hd : ∀ c ∈ natDigits w, 48 ≤ c.toNat ∧ c.toNat ≤ 57 := fun c hc =>
    natDigits_digits hc
  have hfacts : ∀ c ∈ natDigits w,
      pyCasefoldChar c = c ∧ pyUpperChar c = c ∧ pyIsAlnum c = true := fun c hc =>
    digit_char_facts c (by have := hd c hc; omega) (hd c hc).1 (hd c hc).2
  have hcf : pyCasefold (natDigits w) = natDigits w :=
    map_id_of_mem fun c hc => (hfacts c hc).1
  rw [hcf, List.filter_eq_self.mpr fun c hc => (hfacts c hc).2.2]
  exact map_id_of_mem fun c hc => (hfacts c hc).2.1

/-- Claim C3 (amended): `normalize` is idempotent on strings of ASCII
characters containing no `'&'` and no `'('`.  (In general it is not:
`html.unescape` and the `" (XXXX)"` removal run after the Roman-numeral pass
and can expose a fresh Roman-numeral token, see
`c3_normalize_not_idempotent`.) -/
theorem c3_normalize_idempotent_on_plain (s : List Char)
    (hs : s.all plainChar = true) : normalize (normalize s) = normalize s := by
  have hs' : ∀ c ∈ s, plainChar c = true := List.all_eq_true.mp hs
  have hchar := normalize_plain s hs'
  set n := normalize s with hn
  have hn_facts : ∀ c ∈ n, pyIsAlnum c = true ∧ c.toNat < 128 ∧ pyCasefoldChar c = c := by
    intro c hc
    rw [hchar] at hc
    rcases List.mem_flatten.mp hc with ⟨l, hl, hcl⟩
    rcases List.mem_map.mp hl with ⟨t, ht, rfl⟩
    have hcal : pyIsAlnum c = true := List.of_mem_filter hcl
    have hcc : c ∈ pyCasefold (tryRomanNumeralize 20 t) := List.mem_of_mem_filter hcl
    rcases List.mem_map.mp hcc with ⟨c0, hc0, rfl⟩
    have hc0_ascii : c0.toNat < 128 := by
      rcases tryRomanNumeralize_chars hc0 with h | h
      · have := hs' c0 (pySplitWs_chars ht c0 h)
        simp only [plainChar, Bool.and_eq_true, decide_eq_true_eq] at this
        exact this.1.1
      · omega
    exact ⟨hcal, casefold_ascii c0 hc0_ascii, casefold_idem_ascii c0 hc0_ascii⟩
  have hn_plain : ∀ c ∈ n, plainChar c = true := by
    intro c hc
    obtain ⟨hal, hascii, _⟩ := hn_facts c hc
    obtain ⟨_, hamp, hparen⟩ := alnum_not_special hal
    simp [plainChar, hascii, hamp, hparen]
  have hchar2 := normalize_plain n hn_plain
  by_cases hne : n = []
  · rw [hne] at hchar2
    rw [hne]
    simpa [pySplitWs, splitWsAux] using hchar2
  · have hsplit : pySplitWs n = [n] := by
      have hnsp : ∀ c ∈ n, pyIsSpace c = false := fun c hc =>
        (alnum_not_special (hn_facts c hc).1).1
      show splitWsAux [] n = [n]
      rw [splitWsAux_single n [] hne hnsp]
      simp
    have hfilter_n : n.filter pyIsAlnum = n :=
      List.filter_eq_self.mpr fun c hc => (hn_facts c hc).1
    have hcasefold_n : pyCasefold n = n :=
      map_id_of_mem fun c hc => (hn_facts c hc).2.2
    have hbig : ∀ v, fromRoman (pyUpper n) = some v → 20 < v := by
      have hrw : pyUpper n = ((pySplitWs s).map fun t =>
          pyUpper ((pyCasefold (tryRomanNumeralize 20 t)).filter pyIsAlnum)).flatten := by
        rw [hchar, pyUpper_flatten, List.map_map]
        rfl
      rw [hrw]
      apply parts_flatten_not_small
      intro p hp
      rcases List.mem_map.mp hp with ⟨t, ht, rfl⟩
      have ht_ascii : ∀ c ∈ t, c.toNat < 128 := by
        intro c hc
        have := hs' c (pySplitWs_chars ht c hc)
        simp only [plainChar, Bool.and_eq_true, decide_eq_true_eq] at this
        exact this.1.1
      cases hrt : fromRoman (pyUpper (t.filter pyIsAlnum)) with
      | none =>
        refine Or.inr (Or.inl ?_)
        have htr : tryRomanNumeralize 20 t = t := by
          unfold tryRomanNumeralize
          rw [hrt]
        rw [htr, upper_part_eq ht_ascii, hrt]
      | some w =>
        by_cases hw : 20 < w
        · refine Or.inr (Or.inr ⟨w, ?_, hw⟩)
          have htr : tryRomanNumeralize 20 t = t := by
            unfold tryRomanNumeralize
            rw [hrt]
            simp [hw]
          rw [htr, upper_part_eq ht_ascii, hrt]
        · refine Or.inl ?_
          have htr : tryRomanNumeralize 20 t = natDigits w := by
            unfold tryRomanNumeralize
            rw [hrt]
            simp [show ¬ w > 20 by omega]
          rw [htr, upper_part_digits]
          exact ⟨natDigits_ne_nil w, fun ch hch => natDigits_digits hch⟩
    have htry : tryRomanNumeralize 20 n = n := by
      unfold tryRomanNumeralize
      rw [hfilter_n]
      cases hr : fromRoman (pyUpper n) with
      | none => rfl
      | some w =>
        have := hbig w hr
        simp [show w > 20 by omega]
    rw [hchar2, hsplit]
    show ((pyCasefold (tryRomanNumeralize 20 n)).filter pyIsAlnum) ++ [].flatten = n
    rw [htry, hcasefold_n, hfilter_n]
    simp

/-- Claim C3 counterexample: `normalize` is not idempotent —
`normalize("&#105;") = "i"` (the HTML entity is unescaped after the
Roman-numeral pass) but `normalize("i") = "1"`. -/
theorem c3_normalize_not_idempotent :
    normalize (normalize "&#105;".data) ≠ normalize "&#105;".data := by decide

/-- Witness for C3 (amended) at a concrete plain string. -/
theorem c3_normalize_idempotent_on_plain_witness :
    normalize (normalize "Final Fantasy VII".data) = normalize "Final Fantasy VII".data :=
  c3_normalize_idempotent_on_plain "Final Fantasy VII".data (by decide)

/-! ## The positive half of the resume property

`c1_resume_differs_from_uninterrupted` shows the equivalence fails when an
immediate-stop error fires after resume.  The lemmas below show that this is
the only obstruction in scope: when no row of the sheet triggers an
immediate stop (and no batch row is already in the prior `"matches"` output,
whose entries `append` silently drops), resuming from the in-flight
checkpoint written after `k` rows produces exactly the uninterrupted run's
result set, and the checkpoint verification recomputes the resume offset as
`offset + k`. -/

/-- Master case analysis of one loop iteration for a row whose adapter does
not raise `ImmediatelyStopStatusError` and which prior `"matches"` output
does not cover: the iteration appends exactly one entry — under a recognized
label, carrying the row's hash — does not break, and does not depend on the
`enumerate` index or the accumulated result set. -/
theorem processRow_cases {idx : ProcessedIndex} {allGames : List ExcelGame}
    {cs : ExcelGame → Bool} {cm : ExcelGame → MatchGameBehavior} {g : ExcelGame}
    (hm : lookupA g.hash_id idx.matchesIdx = none)
    (hstop : cm g ≠ MatchGameBehavior.raisesImmediatelyStop)
    (hskhyg : ∀ r, lookupA g.hash_id idx.skippedIdx = some (ProcessedEntry.gmrEntry r) →
      ∃ g', r.game = some g' ∧ g'.hash_id = g.hash_id) :
    ∃ gmr label, label ≠ AppendLabel.matchesLit ∧
      (∃ g0, gmr.game = some g0 ∧ g0.hash_id = g.hash_id) ∧
      ∀ (rs : GameMatchResultSet) (i : Nat),
        processRow idx allGames cs cm rs i g = (rs.append gmr label, false) := by
  cases hsk : lookupA g.hash_id idx.skippedIdx with
  | some e =>
    cases e with
    | matchEntry m =>
      exact ⟨⟨some g, [m], none⟩, AppendLabel.skipped, by simp, ⟨g, rfl, rfl⟩,
        fun rs i => by simp [processRow, lookupExisting, hm, hsk, wrapEntry]⟩
    | gmrEntry r =>
      obtain ⟨g', hg', hh⟩ := hskhyg r hsk
      exact ⟨r, AppendLabel.skipped, by simp, ⟨g', hg', hh⟩,
        fun rs i => by simp [processRow, lookupExisting, hm, hsk, wrapEntry]⟩
  | none =>
    by_cases hskip : cs g = true
    · exact ⟨⟨some g, [], none⟩, AppendLabel.skipped, by simp, ⟨g, rfl, rfl⟩,
        fun rs i => by
          simp [processRow, lookupExisting, hm, hsk, try_match_game, hskip]⟩
    · cases hcm : cm g with
      | raisesImmediatelyStop => exact absurd hcm hstop
      | returns ms =>
        exact ⟨⟨some g, filter_matches ms, none⟩, AppendLabel.success, by simp,
          ⟨g, rfl, rfl⟩,
          fun rs i => by
            simp [processRow, lookupExisting, hm, hsk, try_match_game, hskip, hcm]⟩
      | raisesException tb =>
        exact ⟨⟨some g, [], some (BatchError.traceback tb)⟩, AppendLabel.error,
          by simp, ⟨g, rfl, rfl⟩,
          fun rs i => by
            simp [processRow, lookupExisting, hm, hsk, try_match_game, hskip, hcm]⟩

/-- An `append` under a recognized label grows the total entry count by
one. -/
theorem append_count (rs : GameMatchResultSet) (gmr : GameMatchResult)
    (label : AppendLabel) (h : label ≠ AppendLabel.matchesLit) :
    (rs.append gmr label).pyLen + (rs.append gmr label).skipped.length =
      rs.pyLen + rs.skipped.length + 1 := by
  cases label with
  | success => simp [GameMatchResultSet.append, GameMatchResultSet.pyLen]; omega
  | error => simp [GameMatchResultSet.append, GameMatchResultSet.pyLen]; omega
  | skipped => simp [GameMatchResultSet.append, GameMatchResultSet.pyLen]; omega
  | matchesLit => exact absurd rfl h

/-- Hashes recorded by an `append` come from the old set or from the appended
entry's game. -/
theorem append_hashes (rs : GameMatchResultSet) (gmr : GameMatchResult)
    (label : AppendLabel) {h : List Char}
    (hmem : h ∈ (rs.append gmr label).allHashes) :
    h ∈ rs.allHashes ∨ ∃ g0, gmr.game = some g0 ∧ g0.hash_id = h := by
  cases hg : gmr.game with
  | none =>
    refine Or.inl ?_
    cases label <;>
      simpa [GameMatchResultSet.append, GameMatchResultSet.allHashes, entryHashes,
        List.filterMap_append, hg] using hmem
  | some g0 =>
    cases label <;>
      simp only [GameMatchResultSet.append, GameMatchResultSet.allHashes, entryHashes,
        List.filterMap_append, List.filterMap_cons, List.filterMap_nil, hg,
        Option.map_some', List.mem_append, List.mem_singleton,
        Option.some.injEq] at hmem ⊢ <;>
      aesop

/-- Processing a concatenation of break-free rows composes: the loop never
breaks on a row whose adapter does not raise and which prior `"matches"`
output does not cover. -/
theorem processRows_append {idx : ProcessedIndex} {allGames : List ExcelGame}
    {cs : ExcelGame → Bool} {cm : ExcelGame → MatchGameBehavior} :
    ∀ (l1 l2 : List (Nat × ExcelGame)) (rs : GameMatchResultSet),
      (∀ p ∈ l1, lookupA (p.2).hash_id idx.matchesIdx = none ∧
        cm p.2 ≠ MatchGameBehavior.raisesImmediatelyStop ∧
        ∀ r, lookupA (p.2).hash_id idx.skippedIdx = some (ProcessedEntry.gmrEntry r) →
          ∃ g', r.game = some g' ∧ g'.hash_id = (p.2).hash_id) →
      processRows idx allGames cs cm rs (l1 ++ l2) =
        processRows idx allGames cs cm (processRows idx allGames cs cm rs l1) l2 := by
  intro l1
  induction l1 with
  | nil => intro l2 rs _; rfl
  | cons p rest ih =>
    intro l2 rs hwell
    obtain ⟨i, g⟩ := p
    obtain ⟨hm, hstop, hskhyg⟩ := hwell (i, g) (List.mem_cons_self _ _)
    obtain ⟨gmr, label, _, _, hrow⟩ := @processRow_cases idx allGames cs cm _ hm hstop hskhyg
    rw [show processRows idx allGames cs cm rs (((i, g) :: rest) ++ l2) =
        processRows idx allGames cs cm (rs.append gmr label) (rest ++ l2) from by
      simp [processRows, hrow],
      show processRows idx allGames cs cm rs ((i, g) :: rest) =
        processRows idx allGames cs cm (rs.append gmr label) rest from by
      simp [processRows, hrow]]
    exact ih l2 (rs.append gmr label) fun q hq => hwell q (List.mem_cons_of_mem _ hq)

/-- Over break-free rows, the batch loop depends only on the row games, not on
the `enumerate` indices paired with them. -/
theorem processRows_snd_congr {idx : ProcessedIndex} {allGames : List ExcelGame}
    {cs : ExcelGame → Bool} {cm : ExcelGame → MatchGameBehavior} :
    ∀ (rows1 rows2 : List (Nat × ExcelGame)) (rs : GameMatchResultSet),
      rows1.map Prod.snd = rows2.map Prod.snd →
      (∀ p ∈ rows1, lookupA (p.2).hash_id idx.matchesIdx = none ∧
        cm p.2 ≠ MatchGameBehavior.raisesImmediatelyStop ∧
        ∀ r, lookupA (p.2).hash_id idx.skippedIdx = some (ProcessedEntry.gmrEntry r) →
          ∃ g', r.game = some g' ∧ g'.hash_id = (p.2).hash_id) →
      processRows idx allGames cs cm rs rows1 =
        processRows idx allGames cs cm rs rows2 := by
  intro rows1
  induction rows1 with
  | nil =>
    intro rows2 rs hmap _
    cases rows2 with
    | nil => rfl
    | cons q t => simp at hmap
  | cons p rest ih =>
    intro rows2 rs hmap hwell
    cases rows2 with
    | nil => simp at hmap
    | cons q rest2 =>
      obtain ⟨i, g⟩ := p
      obtain ⟨j, g2⟩ := q
      simp only [List.map_cons, List.cons.injEq] at hmap
      obtain ⟨hg, hrest⟩ := hmap
      subst hg
      obtain ⟨hm, hstop, hskhyg⟩ := hwell (i, g) (List.mem_cons_self _ _)
      obtain ⟨gmr, label, _, _, hrow⟩ := @processRow_cases idx allGames cs cm _ hm hstop hskhyg
      rw [show processRows idx allGames cs cm rs ((i, g) :: rest) =
          processRows idx allGames cs cm (rs.append gmr label) rest from by
        simp [processRows, hrow],
        show processRows idx allGames cs cm rs ((j, g) :: rest2) =
          processRows idx allGames cs cm (rs.append gmr label) rest2 from by
        simp [processRows, hrow]]
      exact ih rest2 (rs.append gmr label) hrest
        fun q hq => hwell q (List.mem_cons_of_mem _ hq)

/-- Over break-free rows, the batch loop adds exactly one entry (counting
successes, errors and skipped) per row. -/
theorem processRows_count {idx : ProcessedIndex} {allGames : List ExcelGame}
    {cs : ExcelGame → Bool} {cm : ExcelGame → MatchGameBehavior} :
    ∀ (rows : List (Nat × ExcelGame)) (rs : GameMatchResultSet),
      (∀ p ∈ rows, lookupA (p.2).hash_id idx.matchesIdx = none ∧
        cm p.2 ≠ MatchGameBehavior.raisesImmediatelyStop ∧
        ∀ r, lookupA (p.2).hash_id idx.skippedIdx = some (ProcessedEntry.gmrEntry r) →
          ∃ g', r.game = some g' ∧ g'.hash_id = (p.2).hash_id) →
      (processRows idx allGames cs cm rs rows).pyLen +
          (processRows idx allGames cs cm rs rows).skipped.length =
        rs.pyLen + rs.skipped.length + rows.length := by
  intro rows
  induction rows with
  | nil => intro rs _; simp [processRows]
  | cons p rest ih =>
    intro rs hwell
    obtain ⟨i, g⟩ := p
    obtain ⟨hm, hstop, hskhyg⟩ := hwell (i, g) (List.mem_cons_self _ _)
    obtain ⟨gmr, label, hlab, _, hrow⟩ := @processRow_cases idx allGames cs cm _ hm hstop hskhyg
    rw [show processRows idx allGames cs cm rs ((i, g) :: rest) =
        processRows idx allGames cs cm (rs.append gmr label) rest from by
      simp [processRows, hrow]]
    have hcnt := append_count rs gmr label hlab
    have := ih (rs.append gmr label) fun q hq => hwell q (List.mem_cons_of_mem _ hq)
    simp only [List.length_cons]
    omega

/-- Over break-free rows, every row hash recorded by the batch loop comes from
the starting result set or from one of the processed rows. -/
theorem processRows_hashes {idx : ProcessedIndex} {allGames : List ExcelGame}
    {cs : ExcelGame → Bool} {cm : ExcelGame → MatchGameBehavior} :
    ∀ (rows : List (Nat × ExcelGame)) (rs : GameMatchResultSet),
      (∀ p ∈ rows, lookupA (p.2).hash_id idx.matchesIdx = none ∧
        cm p.2 ≠ MatchGameBehavior.raisesImmediatelyStop ∧
        ∀ r, lookupA (p.2).hash_id idx.skippedIdx = some (ProcessedEntry.gmrEntry r) →
          ∃ g', r.game = some g' ∧ g'.hash_id = (p.2).hash_id) →
      ∀ h ∈ (processRows idx allGames cs cm rs rows).allHashes,
        h ∈ rs.allHashes ∨ h ∈ rows.map fun p => (p.2).hash_id := by
  intro rows
  induction rows with
  | nil => intro rs _ h hmem; exact Or.inl hmem
  | cons p rest ih =>
    intro rs hwell h hmem
    obtain ⟨i, g⟩ := p
    obtain ⟨hm, hstop, hskhyg⟩ := hwell (i, g) (List.mem_cons_self _ _)
    obtain ⟨gmr, label, _, ⟨g0, hg0, hh0⟩, hrow⟩ := @processRow_cases idx allGames cs cm _ hm hstop hskhyg
    rw [show processRows idx allGames cs cm rs ((i, g) :: rest) =
        processRows idx allGames cs cm (rs.append gmr label) rest from by
      simp [processRows, hrow]] at hmem
    rcases ih (rs.append gmr label)
        (fun q hq => hwell q (List.mem_cons_of_mem _ hq)) h hmem with h1 | h1
    · rcases append_hashes rs gmr label h1 with h2 | ⟨g0', hg0', hh0'⟩
      · exact Or.inl h2
      · rw [hg0] at hg0'
        cases hg0'
        right
        simp [← hh0', hh0]
    · right
      simp [h1]

/-- The positive half of the resume property: if no row of the sheet triggers
`ImmediatelyStopStatusError` and no row is covered by prior `"matches"` output,
then the checkpoint written after `k` rows of a batch records exactly `k`
processed entries, its hash verification succeeds, and resuming from it yields
exactly the result set of the uninterrupted batch run. -/
theorem resume_equiv_without_stop (idx : ProcessedIndex) (allGames : List ExcelGame)
    (cs : ExcelGame → Bool) (cm : ExcelGame → MatchGameBehavior)
    (offset batch_size k : Nat)
    (hk : k ≤ batch_size)
    (hkrows : k ≤ ((allGames.drop offset).take batch_size).length)
    (hnostop : ∀ g ∈ allGames, cm g ≠ MatchGameBehavior.raisesImmediatelyStop)
    (hmidx : ∀ g ∈ allGames, lookupA g.hash_id idx.matchesIdx = none)
    (hskhyg : ∀ g ∈ allGames, ∀ r,
      lookupA g.hash_id idx.skippedIdx = some (ProcessedEntry.gmrEntry r) →
      ∃ g', r.game = some g' ∧ g'.hash_id = g.hash_id) :
    (interruptedCheckpoint idx allGames cs cm offset batch_size k).pyLen +
        (interruptedCheckpoint idx allGames cs cm offset batch_size k).skipped.length
      = k ∧
    getMatchesForSource idx allGames cs cm offset batch_size false
        (some (interruptedCheckpoint idx allGames cs cm offset batch_size k)) =
      getMatchesForSource idx allGames cs cm offset batch_size false none := by
  set slice := (allGames.drop offset).take batch_size with hslice
  set rows := slice.enum with hrows
  have hmem_slice : ∀ g ∈ slice, g ∈ allGames := fun g hg =>
    List.mem_of_mem_drop (List.mem_of_mem_take hg)
  have hwell : ∀ p ∈ rows, lookupA (p.2).hash_id idx.matchesIdx = none ∧
      cm p.2 ≠ MatchGameBehavior.raisesImmediatelyStop ∧
      ∀ r, lookupA (p.2).hash_id idx.skippedIdx = some (ProcessedEntry.gmrEntry r) →
        ∃ g', r.game = some g' ∧ g'.hash_id = (p.2).hash_id := by
    intro p hp
    have h1 : p.2 ∈ rows.map Prod.snd := List.mem_map_of_mem Prod.snd hp
    rw [hrows, List.enum_map_snd] at h1
    have hg := hmem_slice _ h1
    exact ⟨hmidx _ hg, hnostop _ hg, hskhyg _ hg⟩
  have hwell_take : ∀ p ∈ rows.take k, lookupA (p.2).hash_id idx.matchesIdx = none ∧
      cm p.2 ≠ MatchGameBehavior.raisesImmediatelyStop ∧
      ∀ r, lookupA (p.2).hash_id idx.skippedIdx = some (ProcessedEntry.gmrEntry r) →
        ∃ g', r.game = some g' ∧ g'.hash_id = (p.2).hash_id :=
    fun p hp => hwell p (List.mem_of_mem_take hp)
  have hwell_drop : ∀ p ∈ rows.drop k, lookupA (p.2).hash_id idx.matchesIdx = none ∧
      cm p.2 ≠ MatchGameBehavior.raisesImmediatelyStop ∧
      ∀ r, lookupA (p.2).hash_id idx.skippedIdx = some (ProcessedEntry.gmrEntry r) →
        ∃ g', r.game = some g' ∧ g'.hash_id = (p.2).hash_id :=
    fun p hp => hwell p (List.mem_of_mem_drop hp)
  have hck : interruptedCheckpoint idx allGames cs cm offset batch_size k =
      processRows idx allGames cs cm (GameMatchResultSet.empty offset batch_size)
        (rows.take k) := rfl
  have hlen : (rows.take k).length = k := by
    rw [List.length_take, hrows, List.enum_length]
    omega
  have hcount : (interruptedCheckpoint idx allGames cs cm offset batch_size k).pyLen +
      (interruptedCheckpoint idx allGames cs cm offset batch_size k).skipped.length
        = k := by
    rw [hck, processRows_count (rows.take k) _ hwell_take]
    simp [GameMatchResultSet.empty, GameMatchResultSet.pyLen, hlen]
  refine ⟨hcount, ?_⟩
  by_cases hoff : offset > allGames.length
  · simp [getMatchesForSource, hoff]
  · have hhash : ∀ h ∈ (interruptedCheckpoint idx allGames cs cm offset
        batch_size k).allHashes,
        h ∈ ((allGames.drop offset).take k).map ExcelGame.hash_id := by
      intro h hmem
      rw [hck] at hmem
      rcases processRows_hashes (rows.take k) _ hwell_take h hmem with h1 | h1
      · simp [GameMatchResultSet.empty, GameMatchResultSet.allHashes,
          entryHashes] at h1
      · have h2 : (rows.take k).map (fun p : Nat × ExcelGame => (p.2).hash_id) =
            ((allGames.drop offset).take k).map ExcelGame.hash_id := by
          calc (rows.take k).map (fun p : Nat × ExcelGame => (p.2).hash_id)
              = ((rows.take k).map Prod.snd).map ExcelGame.hash_id := by
                rw [List.map_map]
                rfl
            _ = (slice.take k).map ExcelGame.hash_id := by
                rw [List.map_take, hrows, List.enum_map_snd]
            _ = ((allGames.drop offset).take k).map ExcelGame.hash_id := by
                rw [hslice, List.take_take, Nat.min_eq_left hk]
        rw [← h2]
        exact h1
    have hcheck : ((interruptedCheckpoint idx allGames cs cm offset
        batch_size k).allHashes.all fun h =>
          (((allGames.drop offset).take k).map ExcelGame.hash_id).contains h) = true :=
      List.all_eq_true.mpr fun h hm => List.elem_eq_true_of_mem (hhash h hm)
    have hL : getMatchesForSource idx allGames cs cm offset batch_size false
        (some (interruptedCheckpoint idx allGames cs cm offset batch_size k)) =
        some (processRows idx allGames cs cm
          (interruptedCheckpoint idx allGames cs cm offset batch_size k)
          (((allGames.drop (offset + k)).take
            (offset + batch_size - (offset + k))).enum)) := by
      simp only [getMatchesForSource]
      rw [if_neg hoff, hcount]
      rw [if_pos hcheck]
      simp
    have hR : getMatchesForSource idx allGames cs cm offset batch_size false none =
        some (processRows idx allGames cs cm
          (GameMatchResultSet.empty offset batch_size) rows) := by
      simp only [getMatchesForSource]
      rw [if_neg hoff]
      simp only [Bool.false_and, Bool.false_eq_true, if_false]
      rw [Nat.add_sub_cancel_left, ← hslice, ← hrows]
    have hsplit : processRows idx allGames cs cm
        (GameMatchResultSet.empty offset batch_size) rows =
        processRows idx allGames cs cm
          (interruptedCheckpoint idx allGames cs cm offset batch_size k)
          (rows.drop k) := by
      conv_lhs => rw [← List.take_append_drop k rows]
      rw [processRows_append (rows.take k) (rows.drop k) _ hwell_take, ← hck]
    have harith : offset + batch_size - (offset + k) = batch_size - k := by omega
    have hmap : (rows.drop k).map Prod.snd =
        ((((allGames.drop (offset + k)).take
          (offset + batch_size - (offset + k))).enum).map Prod.snd) := by
      rw [List.enum_map_snd, List.map_drop, hrows, List.enum_map_snd, hslice,
        List.drop_take, List.drop_drop, harith]
    rw [hL, hR, hsplit]
    exact congrArg some (processRows_snd_congr (rows.drop k) _ _ hmap hwell_drop).symm

end GamesMaster
